import Mathlib

/-!
Verification of the sparse-matrix implementation in
`src/dsa/sparse_matrix/code/src/sparse_matrix.py`.

The Python code is shallowly embedded: text is modelled as `List Char`
(one list per line of the file), Python `int` as `Int`, the
dictionary-of-dictionaries entry store as a flat association list keyed
by `(row, col)` (the nested-dict layout only affects iteration order,
and every observation of the store in the program — `get_element`,
`__str__`, `save_to_file` — is order-insensitive or sorts first), and
every `raise` as an `Except.error` carrying a typed error whose
`message` reproduces the Python exception text exactly.
-/

set_option linter.unusedVariables false

abbrev Line := List Char

/-! ## Decimal rendering (model of Python's `str` on `int`) -/

/-- Character for a single decimal digit (`n < 10`). -/
def digitChar (n : Nat) : Char :=
  match n with
  | 0 => '0' | 1 => '1' | 2 => '2' | 3 => '3' | 4 => '4'
  | 5 => '5' | 6 => '6' | 7 => '7' | 8 => '8' | 9 => '9'
  | _ => '0'

/-- Fuel-driven base-10 rendering; fuel `n + 1` always suffices. -/
def natDigitsGo : Nat → Nat → List Char
  | 0, _ => []
  | fuel + 1, n =>
    if n < 10 then [digitChar n]
    else natDigitsGo fuel (n / 10) ++ [digitChar (n % 10)]

/-- Decimal digits of a natural number, most significant first. -/
def natDigits (n : Nat) : List Char := natDigitsGo (n + 1) n

/-- Numeric value of a list of decimal digit characters. -/
def digitsToNat (l : List Char) : Nat :=
  l.foldl (fun a c => 10 * a + (c.toNat - 48)) 0

/-- Decimal rendering of an integer, model of Python `str(i)`. -/
def intRepr (i : Int) : List Char :=
  if i < 0 then '-' :: natDigits i.natAbs else natDigits i.natAbs

/-! ## Whitespace trimming and splitting (models of `str.strip` / `str.split`) -/

def isWs (c : Char) : Bool := c.isWhitespace

/-- Remove leading whitespace (left half of Python `strip`). -/
def ltrim (l : Line) : Line := l.dropWhile isWs

/-- Remove trailing whitespace (right half of Python `strip`). -/
def rtrim (l : Line) : Line := (l.reverse.dropWhile isWs).reverse

/-- Model of Python `str.strip()`. -/
def trimChars (l : Line) : Line := ltrim (rtrim l)

/-- Model of Python `str.split(sep)` for a one-character separator:
`splitOnChar sep []` is `[[]]`, mirroring `"".split(sep) == ['']`. -/
def splitOnChar (sep : Char) : Line → List Line
  | [] => [[]]
  | c :: rest =>
    let r := splitOnChar sep rest
    if c = sep then [] :: r else (c :: r.headD []) :: r.tail

/-! ## Integer-string validation and parsing -/

/-- Model of `SparseMatrix._is_valid_int` (sparse_matrix.py lines 30-34):
strip, then an optional sign followed by one or more digits. -/
def is_valid_int (s0 : Line) : Bool :=
  match trimChars s0 with
  | [] => false
  | c :: rest =>
    if c = '+' || c = '-' then !rest.isEmpty && rest.all Char.isDigit
    else (c :: rest).all Char.isDigit

/-- Model of Python `int(s)` on strings accepted by `is_valid_int`. -/
def parse_int (s0 : Line) : Int :=
  match trimChars s0 with
  | [] => 0
  | c :: rest =>
    if c = '-' then -(digitsToNat rest : Int)
    else if c = '+' then (digitsToNat rest : Int)
    else (digitsToNat (c :: rest) : Int)

/-! ## The sparse matrix store -/

/-- State of a `SparseMatrix` object: dimensions plus the flat list of
stored `(row, col) ↦ value` entries (the Python nested dict flattened). -/
structure SparseMatrix where
  rows : Nat
  cols : Nat
  matrix_data : List ((Int × Int) × Int)
deriving Repr, DecidableEq

/-- First value stored under a key, model of nested-dict lookup. -/
def lookupKey : List ((Int × Int) × Int) → Int × Int → Option Int
  | [], _ => none
  | (k, v) :: rest, key => if k = key then some v else lookupKey rest key

/-- Remove every entry stored under a key, model of `del d[r][c]`. -/
def eraseKey : List ((Int × Int) × Int) → Int × Int → List ((Int × Int) × Int)
  | [], _ => []
  | (k, v) :: rest, key =>
    if k = key then eraseKey rest key else (k, v) :: eraseKey rest key

/-- Typed rendering of every exception the Python module can raise;
`message` below recovers the exact exception text. -/
inductive MatrixError where
  | notASparseMatrix
  | invalidDimensions
  | duplicateRowsHeader
  | duplicateColsHeader
  | malformedHeader (dim_type : Line)
  | headerOutOfRange (dim_type : Line)
  | malformedRowsLine (lineNo : Nat)
  | malformedColsLine (lineNo : Nat)
  | headerMissing
  | malformedEntry (lineNo : Nat)
  | entryOutOfBounds (r c : Int)
  | unrecognizedLine (lineNo : Nat)
  | missingHeaders
  | indexOutOfBounds
  | invalidValue
  | dimensionMismatch
  | incompatibleDimensions
deriving Repr, DecidableEq

/-- Exact Python exception message for each error. -/
def MatrixError.message : MatrixError → Line
  | notASparseMatrix => ("Operand must be a SparseMatrix instance.").data
  | invalidDimensions => ("Matrix dimension counts must be non-negative.").data
  | duplicateRowsHeader =>
      ("Input file has wrong format: \x27rows\x27 specified multiple times.").data
  | duplicateColsHeader =>
      ("Input file has wrong format: \x27cols\x27 specified multiple times.").data
  | malformedHeader d =>
      ("Input file has wrong format: \x27").data ++ d ++ ("s\x27 value is not an integer").data
  | headerOutOfRange d =>
      ("Input file has wrong format: \x27").data ++ d ++ ("s\x27 value cannot be less than -1").data
  | malformedRowsLine n =>
      ("Input file has wrong format: Malformed \x27rows\x27 entry on line ").data ++ natDigits n
  | malformedColsLine n =>
      ("Input file has wrong format: Malformed \x27cols\x27 entry on line ").data ++ natDigits n
  | headerMissing =>
      ("Input file has wrong format: Matrix dimensions must be defined before data entries.").data
  | malformedEntry n =>
      ("Input file has wrong format: Invalid data entry on line ").data ++ natDigits n
  | entryOutOfBounds r c =>
      ("Input file has wrong format: Data entry (").data ++ intRepr r ++ (",").data
        ++ intRepr c ++ (") out of bounds.").data
  | unrecognizedLine n =>
      ("Input file has wrong format: Unrecognized line format on line ").data ++ natDigits n
  | missingHeaders =>
      ("Input file has wrong format: Missing \x27rows\x27 or \x27cols\x27 definition.").data
  | indexOutOfBounds => ("Element index out of bounds.").data
  | invalidValue => ("Value must be an integer.").data
  | dimensionMismatch => ("Matrices must have the same dimensions for this operation.").data
  | incompatibleDimensions => ("Incompatible dimensions for matrix multiplication.").data

/-! ## Element access and mutation -/

/-- Model of `SparseMatrix.get_element` (lines 115-118). -/
def SparseMatrix.get_element (m : SparseMatrix) (curr_row curr_col : Int) :
    Except MatrixError Int :=
  if 0 ≤ curr_row ∧ curr_row < (m.rows : Int) ∧ 0 ≤ curr_col ∧ curr_col < (m.cols : Int) then
    .ok ((lookupKey m.matrix_data (curr_row, curr_col)).getD 0)
  else .error .indexOutOfBounds

/-- Stored value at a position, 0 when absent (the value `get_element`
returns at an in-bounds position). -/
def SparseMatrix.getv (m : SparseMatrix) (r c : Int) : Int :=
  (lookupKey m.matrix_data (r, c)).getD 0

/-- Entry-list update performed by a successful `set_element`:
a zero value deletes the key, any other value overwrites it. -/
def setData (l : List ((Int × Int) × Int)) (r c v : Int) : List ((Int × Int) × Int) :=
  if v = 0 then eraseKey l (r, c) else ((r, c), v) :: eraseKey l (r, c)

/-- Model of `SparseMatrix.set_element` (lines 121-134).  The
`isinstance(value, int)` check cannot fail here because `v : Int`. -/
def SparseMatrix.set_element (m : SparseMatrix) (curr_row curr_col value : Int) :
    Except MatrixError SparseMatrix :=
  if 0 ≤ curr_row ∧ curr_row < (m.rows : Int) ∧ 0 ≤ curr_col ∧ curr_col < (m.cols : Int) then
    .ok ⟨m.rows, m.cols, setData m.matrix_data curr_row curr_col value⟩
  else .error .indexOutOfBounds

/-- The matrix a successful `set_element` produces. -/
def setOk (m : SparseMatrix) (r c v : Int) : SparseMatrix :=
  ⟨m.rows, m.cols, setData m.matrix_data r c v⟩

/-- Model of the dimensions branch of `SparseMatrix.__init__`
(lines 16-25). -/
def SparseMatrix.fromDims (numRows numCols : Int) : Except MatrixError SparseMatrix :=
  if numRows < 0 ∨ numCols < 0 then .error .invalidDimensions
  else .ok ⟨numRows.toNat, numCols.toNat, []⟩

/-- Empty matrix with the given dimensions (what `SparseMatrix(r, c)`
builds for the non-negative dimension counts used internally). -/
def newMatrix (numRows numCols : Nat) : SparseMatrix := ⟨numRows, numCols, []⟩

/-! ## File parsing -/

def rowsTag : Line := ("rows=").data
def colsTag : Line := ("cols=").data
def rowT : Line := ("row").data
def colT : Line := ("col").data
def wrongFormatTag : Line := ("Input file has wrong format").data

/-- Model of `SparseMatrix._validate_and_set_dimension` (lines 99-112). -/
def validate_and_set_dimension (m : SparseMatrix) (val_str : Line) (dim_type : Line) :
    Except MatrixError SparseMatrix :=
  if !is_valid_int val_str then .error (.malformedHeader dim_type)
  else if parse_int val_str < -1 then .error (.headerOutOfRange dim_type)
  else if dim_type = rowT then .ok ⟨(parse_int val_str + 1).toNat, m.cols, m.matrix_data⟩
  else .ok ⟨m.rows, (parse_int val_str + 1).toNat, m.matrix_data⟩

/-- The three trimmed comma fields of a data line
(`line[1:-1].strip().split(',')` with each part stripped, lines 81). -/
def entry_parts (line : Line) : List Line :=
  (splitOnChar ',' (trimChars ((line.drop 1).dropLast))).map trimChars

/-- Outcome of processing one line of the file: either the loop
continues with an updated state, or an exception is raised. -/
inductive StepResult where
  | cont (parsed_rows parsed_cols : Bool) (m : SparseMatrix)
  | fail (e : MatrixError)
deriving Repr, DecidableEq

/-- Processing of a `rows=` line (lines 53-62 of the source);
the `IndexError` fallback arm and the `"Input file has wrong format"
re-raise test of the `except` clause are translated literally. -/
def rowsHeaderStep (line : Line) (lineNo : Nat) (parsed_rows parsed_cols : Bool)
    (m : SparseMatrix) : StepResult :=
  if parsed_rows then .fail .duplicateRowsHeader
  else
    match (splitOnChar '=' line).drop 1 with
    | val :: _ =>
      match validate_and_set_dimension m (trimChars val) rowT with
      | .ok m2 => .cont true parsed_cols m2
      | .error e =>
        if wrongFormatTag <:+: e.message then .fail e
        else .fail (.malformedRowsLine lineNo)
    | [] => .fail (.malformedRowsLine lineNo)

/-- Processing of a `cols=` line (lines 65-74 of the source). -/
def colsHeaderStep (line : Line) (lineNo : Nat) (parsed_rows parsed_cols : Bool)
    (m : SparseMatrix) : StepResult :=
  if parsed_cols then .fail .duplicateColsHeader
  else
    match (splitOnChar '=' line).drop 1 with
    | val :: _ =>
      match validate_and_set_dimension m (trimChars val) colT with
      | .ok m2 => .cont parsed_rows true m2
      | .error e =>
        if wrongFormatTag <:+: e.message then .fail e
        else .fail (.malformedColsLine lineNo)
    | [] => .fail (.malformedColsLine lineNo)

/-- Processing of a parenthesised data line (lines 77-91). -/
def dataLineStep (line : Line) (lineNo : Nat) (parsed_rows parsed_cols : Bool)
    (m : SparseMatrix) : StepResult :=
  if !(parsed_rows && parsed_cols) then .fail .headerMissing
  else if (entry_parts line).length ≠ 3 ∨ ¬((entry_parts line).all is_valid_int) then
    .fail (.malformedEntry lineNo)
  else
    match entry_parts line with
    | [rs, cs, vs] =>
      if 0 ≤ parse_int rs ∧ parse_int rs < (m.rows : Int) ∧
          0 ≤ parse_int cs ∧ parse_int cs < (m.cols : Int) then
        match m.set_element (parse_int rs) (parse_int cs) (parse_int vs) with
        | .ok m2 => .cont parsed_rows parsed_cols m2
        | .error e => .fail e
      else .fail (.entryOutOfBounds (parse_int rs) (parse_int cs))
    | _ => .fail (.malformedEntry lineNo)

/-- Branch dispatch of the parser loop body on the stripped line. -/
def stepTrimmed (line : Line) (lineNo : Nat) (parsed_rows parsed_cols : Bool)
    (m : SparseMatrix) : StepResult :=
  if line.isEmpty then .cont parsed_rows parsed_cols m
  else if rowsTag.isPrefixOf line then rowsHeaderStep line lineNo parsed_rows parsed_cols m
  else if colsTag.isPrefixOf line then colsHeaderStep line lineNo parsed_rows parsed_cols m
  else if line.head? = some '(' ∧ line.getLast? = some ')' then
    dataLineStep line lineNo parsed_rows parsed_cols m
  else .fail (.unrecognizedLine lineNo)

/-- One iteration of the `for line_num, raw_line in enumerate(lines)`
loop of `_parse_file` (lines 48-93); `lineNo` is the 1-based line
number `line_num + 1`. -/
def parseStep (raw : Line) (lineNo : Nat) (parsed_rows parsed_cols : Bool)
    (m : SparseMatrix) : StepResult :=
  stepTrimmed (trimChars raw) lineNo parsed_rows parsed_cols m

/-- The line loop of `_parse_file` plus its final missing-header check
(lines 95-96); `idx` is the 0-based index of the next line. -/
def parseLinesAux : List Line → Nat → Bool → Bool → SparseMatrix →
    Except MatrixError SparseMatrix
  | [], _, pr, pc, m => if pr && pc then .ok m else .error .missingHeaders
  | raw :: rest, idx, pr, pc, m =>
    match parseStep raw (idx + 1) pr pc m with
    | .cont pr2 pc2 m2 => parseLinesAux rest (idx + 1) pr2 pc2 m2
    | .fail e => .error e

/-- Model of `SparseMatrix._parse_file` on the list of lines of the
file (the `__init__` state `rows = cols = 0`, empty store, is the
starting matrix). -/
def parse_file (lines : List Line) : Except MatrixError SparseMatrix :=
  parseLinesAux lines 0 false false ⟨0, 0, []⟩

/-! ## Arithmetic operations -/

/-- First loop of `operate` (lines 156-158): copy every entry of
`self` into the result via `set_element`. -/
def copyEntries : SparseMatrix → List ((Int × Int) × Int) →
    Except MatrixError SparseMatrix
  | acc, [] => .ok acc
  | acc, ((r, c), v) :: rest =>
    match acc.set_element r c v with
    | .ok acc2 => copyEntries acc2 rest
    | .error e => .error e

/-- Second loop of `operate` (lines 160-163): combine every entry of
`other` into the result with `operation`. -/
def combineEntries (op : Int → Int → Int) : SparseMatrix → List ((Int × Int) × Int) →
    Except MatrixError SparseMatrix
  | acc, [] => .ok acc
  | acc, ((r, c), v) :: rest =>
    match acc.get_element r c with
    | .ok cur =>
      match acc.set_element r c (op cur v) with
      | .ok acc2 => combineEntries op acc2 rest
      | .error e => .error e
    | .error e => .error e

/-- Model of `SparseMatrix.operate` (lines 148-165).  The
`isinstance` test cannot fail here because both operands are typed. -/
def SparseMatrix.operate (self other : SparseMatrix) (operation : Int → Int → Int) :
    Except MatrixError SparseMatrix :=
  if self.rows ≠ other.rows ∨ self.cols ≠ other.cols then .error .dimensionMismatch
  else
    match copyEntries (newMatrix self.rows self.cols) self.matrix_data with
    | .ok m1 => combineEntries operation m1 other.matrix_data
    | .error e => .error e

/-- Model of `SparseMatrix.add` (lines 168-169). -/
def SparseMatrix.add (self other : SparseMatrix) : Except MatrixError SparseMatrix :=
  self.operate other (fun x y => x + y)

/-- Model of `SparseMatrix.subtract` (lines 172-173). -/
def SparseMatrix.subtract (self other : SparseMatrix) : Except MatrixError SparseMatrix :=
  self.operate other (fun x y => x - y)

/-- Inner loop of `multiply` (lines 186-189): for one entry
`(r1, c1) = v1` of `self`, fold over the entries of `other` stored in
row `c1` and accumulate `v1 * v2` into `result[r1][c2]`. -/
def mulInner (r1 c1 v1 : Int) : SparseMatrix → List ((Int × Int) × Int) →
    Except MatrixError SparseMatrix
  | acc, [] => .ok acc
  | acc, ((rB, c2), v2) :: rest =>
    if rB = c1 then
      match acc.get_element r1 c2 with
      | .ok cur =>
        match acc.set_element r1 c2 (cur + v1 * v2) with
        | .ok acc2 => mulInner r1 c1 v1 acc2 rest
        | .error e => .error e
      | .error e => .error e
    else mulInner r1 c1 v1 acc rest

/-- Outer loop of `multiply` (lines 184-189). -/
def mulOuter (bEntries : List ((Int × Int) × Int)) : SparseMatrix →
    List ((Int × Int) × Int) → Except MatrixError SparseMatrix
  | acc, [] => .ok acc
  | acc, ((r1, c1), v1) :: rest =>
    match mulInner r1 c1 v1 acc bEntries with
    | .ok acc2 => mulOuter bEntries acc2 rest
    | .error e => .error e

/-- Model of `SparseMatrix.multiply` (lines 176-190). -/
def SparseMatrix.multiply (self other : SparseMatrix) : Except MatrixError SparseMatrix :=
  if self.cols ≠ other.rows then .error .incompatibleDimensions
  else mulOuter other.matrix_data (newMatrix self.rows other.cols) self.matrix_data

/-! ## Saving -/

/-- Row-major (row, then column) order on stored entries — the order
`save_to_file` visits them via the two `sorted` calls. -/
def entryLE (a b : (Int × Int) × Int) : Bool :=
  decide (a.1.1 < b.1.1 ∨ (a.1.1 = b.1.1 ∧ a.1.2 ≤ b.1.2))

def insertSorted (e : (Int × Int) × Int) :
    List ((Int × Int) × Int) → List ((Int × Int) × Int)
  | [] => [e]
  | x :: rest => if entryLE e x then e :: x :: rest else x :: insertSorted e rest

/-- Stable sort of the entry list into row-major order. -/
def sortEntries (l : List ((Int × Int) × Int)) : List ((Int × Int) × Int) :=
  l.foldr insertSorted []

/-- Text of one data line written by `save_to_file`:
`f"({r}, {c}, {value})"`. -/
def entryLine (r c v : Int) : Line :=
  '(' :: ((intRepr r ++ (", ").data ++ intRepr c ++ (", ").data ++ intRepr v) ++ [')'])

/-- Model of `SparseMatrix.save_to_file` (lines 193-201): the list of
lines written to the file. -/
def save_lines (m : SparseMatrix) : List Line :=
  (rowsTag ++ intRepr ((m.rows : Int) - 1)) ::
  (colsTag ++ intRepr ((m.cols : Int) - 1)) ::
  ((sortEntries m.matrix_data).filter (fun e => decide (e.2 ≠ 0))).map
    (fun e => entryLine e.1.1 e.1.2 e.2)

/-! ## Reference-level (heap) model of the operations

The Python operations mutate objects through references.  To state
frame properties (claim C8) the two arithmetic entry points are also
embedded against an explicit heap: a list of `SparseMatrix` states
addressed by position, where `operate`/`multiply` receive references
`i`, `j` and allocate their result at a fresh cell.  Every heap is
returned even on failure, so non-mutation can be stated for the error
paths as well. -/

abbrev Heap := List SparseMatrix

/-- `set_element` performed on the object stored at heap cell `k`. -/
def hset (h : Heap) (k : Nat) (r c v : Int) : Except MatrixError Heap :=
  match h[k]? with
  | some m =>
    match m.set_element r c v with
    | .ok m2 => .ok (h.set k m2)
    | .error e => .error e
  | none => .error .indexOutOfBounds

/-- `get_element` performed on the object stored at heap cell `k`. -/
def hget (h : Heap) (k : Nat) (r c : Int) : Except MatrixError Int :=
  match h[k]? with
  | some m => m.get_element r c
  | none => .error .indexOutOfBounds

/-- Heap version of the copy loop of `operate`; on failure the heap
reached so far is still returned. -/
def hcopy (k : Nat) : Heap → List ((Int × Int) × Int) → Heap × Option MatrixError
  | h, [] => (h, none)
  | h, ((r, c), v) :: rest =>
    match hset h k r c v with
    | .ok h2 => hcopy k h2 rest
    | .error e => (h, some e)

/-- Heap version of the combine loop of `operate`. -/
def hcombine (op : Int → Int → Int) (k : Nat) :
    Heap → List ((Int × Int) × Int) → Heap × Option MatrixError
  | h, [] => (h, none)
  | h, ((r, c), v) :: rest =>
    match hget h k r c with
    | .ok cur =>
      match hset h k r c (op cur v) with
      | .ok h2 => hcombine op k h2 rest
      | .error e => (h, some e)
    | .error e => (h, some e)

/-- Heap version of `operate`: operands are references `i`, `j`; the
result object is allocated at the fresh cell `h.length`. -/
def operateH (h : Heap) (i j : Nat) (op : Int → Int → Int) :
    Heap × Except MatrixError Nat :=
  match h[i]?, h[j]? with
  | some a, some b =>
    if a.rows ≠ b.rows ∨ a.cols ≠ b.cols then (h, .error .dimensionMismatch)
    else
      match hcopy h.length (h ++ [newMatrix a.rows a.cols]) a.matrix_data with
      | (h2, none) =>
        match hcombine op h.length h2 b.matrix_data with
        | (h3, none) => (h3, .ok h.length)
        | (h3, some e) => (h3, .error e)
      | (h2, some e) => (h2, .error e)
  | _, _ => (h, .error .notASparseMatrix)

/-- Heap version of the inner loop of `multiply`. -/
def hmulInner (r1 c1 v1 : Int) (k : Nat) :
    Heap → List ((Int × Int) × Int) → Heap × Option MatrixError
  | h, [] => (h, none)
  | h, ((rB, c2), v2) :: rest =>
    if rB = c1 then
      match hget h k r1 c2 with
      | .ok cur =>
        match hset h k r1 c2 (cur + v1 * v2) with
        | .ok h2 => hmulInner r1 c1 v1 k h2 rest
        | .error e => (h, some e)
      | .error e => (h, some e)
    else hmulInner r1 c1 v1 k h rest

/-- Heap version of the outer loop of `multiply`. -/
def hmulOuter (bEntries : List ((Int × Int) × Int)) (k : Nat) :
    Heap → List ((Int × Int) × Int) → Heap × Option MatrixError
  | h, [] => (h, none)
  | h, ((r1, c1), v1) :: rest =>
    match hmulInner r1 c1 v1 k h bEntries with
    | (h2, none) => hmulOuter bEntries k h2 rest
    | (h2, some e) => (h2, some e)

/-- Heap version of `multiply`. -/
def multiplyH (h : Heap) (i j : Nat) : Heap × Except MatrixError Nat :=
  match h[i]?, h[j]? with
  | some a, some b =>
    if a.cols ≠ b.rows then (h, .error .incompatibleDimensions)
    else
      match hmulOuter b.matrix_data h.length (h ++ [newMatrix a.rows b.cols]) a.matrix_data with
      | (h2, none) => (h2, .ok h.length)
      | (h2, some e) => (h2, .error e)
  | _, _ => (h, .error .notASparseMatrix)

/-! ## The representation invariant -/

/-- Well-formedness of a matrix state: every stored entry is strictly
in bounds and non-zero, and keys are unique. -/
def WF (m : SparseMatrix) : Prop :=
  (∀ e ∈ m.matrix_data,
      0 ≤ e.1.1 ∧ e.1.1 < (m.rows : Int) ∧ 0 ≤ e.1.2 ∧ e.1.2 < (m.cols : Int) ∧ e.2 ≠ 0)
  ∧ (m.matrix_data.map Prod.fst).Nodup

/-! ## Auxiliary definitions used in statements and proofs -/

/-- In-bounds predicate for a stored entry against given dimensions. -/
def inBdd (rows cols : Nat) (e : (Int × Int) × Int) : Prop :=
  0 ≤ e.1.1 ∧ e.1.1 < (rows : Int) ∧ 0 ≤ e.1.2 ∧ e.1.2 < (cols : Int)

/-- Invariant carried through the parse loop: the matrix under
construction is well-formed, and it can only hold entries once both
headers have been seen. -/
def StateInv (pr pc : Bool) (m : SparseMatrix) : Prop :=
  WF m ∧ (m.matrix_data = [] ∨ (pr = true ∧ pc = true))

/-- Sum of the values stored under exactly `key` in an entry list. -/
def entrySumAt (key : Int × Int) (l : List ((Int × Int) × Int)) : Int :=
  (l.map (fun e => if e.1 = key then e.2 else 0)).sum

/-- Total contribution of the outer multiplication loop to cell `p`. -/
def outerSum (p : Int × Int) (l bEntries : List ((Int × Int) × Int)) : Int :=
  (l.map (fun e => if p.1 = e.1.1 then e.2 * entrySumAt (e.1.2, p.2) bEntries else 0)).sum

/-- A parenthesised data line with three raw comma-separated fields. -/
def dataLine (fa fb fc : Line) : Line :=
  '(' :: ((fa ++ ',' :: (fb ++ ',' :: fc)) ++ [')'])

/-! ## Concrete matrices used by witnesses -/

def exA : SparseMatrix := ⟨1, 1, [((0, 0), 5)]⟩
def exB : SparseMatrix := ⟨1, 1, [((0, 0), 3)]⟩

def exM1 : SparseMatrix := ⟨2, 2, [((0, 0), 1), ((0, 1), 2)]⟩
def exM2 : SparseMatrix := ⟨2, 2, [((0, 0), 3), ((1, 0), 4)]⟩


/-! ## Basic lemmas: digits and decimal rendering -/

theorem char_ne_of_isDigit {c d : Char} (h : c.isDigit = true) (hd : d.isDigit = false) :
    c ≠ d := by
  intro e
  subst e
  rw [h] at hd
  exact Bool.noConfusion hd

theorem isWs_eq_false_of_isDigit {c : Char} (h : c.isDigit = true) : isWs c = false := by
  cases hw : isWs c
  · rfl
  · exfalso
    have hmem : ((c = ' ' ∨ c = '\t') ∨ c = '\x0d') ∨ c = '\n' := by
      simpa [isWs, Char.isWhitespace] using hw
    rcases hmem with ((rfl | rfl) | rfl) | rfl <;> exact absurd h (by decide)

theorem digitChar_isDigit {n : Nat} (h : n < 10) : (digitChar n).isDigit = true := by
  interval_cases n <;> decide

theorem digitChar_toNat {n : Nat} (h : n < 10) : (digitChar n).toNat - 48 = n := by
  interval_cases n <;> decide

theorem natDigitsGo_all_digit : ∀ fuel n, (natDigitsGo fuel n).all Char.isDigit = true := by
  intro fuel
  induction fuel with
  | zero => intro n; rfl
  | succ fuel ih =>
    intro n
    unfold natDigitsGo
    by_cases h : n < 10
    · simp [h, digitChar_isDigit h]
    · have h10 : n % 10 < 10 := Nat.mod_lt _ (by omega)
      simp [h, List.all_append, ih (n / 10), digitChar_isDigit h10]

theorem natDigitsGo_ne_nil : ∀ fuel n, 0 < fuel → natDigitsGo fuel n ≠ [] := by
  intro fuel n h
  match fuel, h with
  | fuel + 1, _ =>
    unfold natDigitsGo
    by_cases h : n < 10
    · simp [h]
    · simp [h]

theorem digitsToNat_append (l : List Char) (c : Char) :
    digitsToNat (l ++ [c]) = 10 * digitsToNat l + (c.toNat - 48) := by
  simp [digitsToNat, List.foldl_append]

theorem digitsToNat_natDigitsGo : ∀ fuel n, n < fuel →
    digitsToNat (natDigitsGo fuel n) = n := by
  intro fuel
  induction fuel with
  | zero => intro n h; omega
  | succ fuel ih =>
    intro n h
    unfold natDigitsGo
    by_cases h10 : n < 10
    · simp [h10, digitsToNat, digitChar_toNat h10]
    · have hdiv : n / 10 < n := Nat.div_lt_self (by omega) (by omega)
      have hmod : n % 10 < 10 := Nat.mod_lt _ (by omega)
      simp only [h10, if_false]
      rw [digitsToNat_append, ih (n / 10) (by omega), digitChar_toNat hmod]
      omega

theorem digitsToNat_natDigits (n : Nat) : digitsToNat (natDigits n) = n :=
  digitsToNat_natDigitsGo (n + 1) n (Nat.lt_succ_self n)

theorem natDigits_all_digit (n : Nat) : (natDigits n).all Char.isDigit = true :=
  natDigitsGo_all_digit (n + 1) n

theorem natDigits_ne_nil (n : Nat) : natDigits n ≠ [] :=
  natDigitsGo_ne_nil (n + 1) n (Nat.succ_pos n)

theorem mem_natDigits_isDigit {n : Nat} {c : Char} (h : c ∈ natDigits n) :
    c.isDigit = true := by
  have := natDigits_all_digit n
  rw [List.all_eq_true] at this
  exact this c h

theorem mem_intRepr {i : Int} {c : Char} (h : c ∈ intRepr i) :
    c.isDigit = true ∨ c = '-' := by
  unfold intRepr at h
  by_cases hi : i < 0
  · simp only [hi, if_true] at h
    rcases List.mem_cons.mp h with rfl | h
    · exact Or.inr rfl
    · exact Or.inl (mem_natDigits_isDigit h)
  · simp only [hi, if_false] at h
    exact Or.inl (mem_natDigits_isDigit h)

theorem intRepr_no_ws {i : Int} {c : Char} (h : c ∈ intRepr i) : isWs c = false := by
  rcases mem_intRepr h with hd | rfl
  · exact isWs_eq_false_of_isDigit hd
  · rfl

theorem intRepr_no_char {i : Int} {d : Char} (hd : d.isDigit = false) (hne : d ≠ '-') :
    d ∉ intRepr i := by
  intro hmem
  rcases mem_intRepr hmem with h | h
  · exact char_ne_of_isDigit h hd rfl
  · exact hne h

/-! ## Basic lemmas: trimming -/

theorem ltrim_eq_self {l : Line} (h : ∀ c, l.head? = some c → isWs c = false) :
    ltrim l = l := by
  cases l with
  | nil => rfl
  | cons c t =>
    have := h c rfl
    simp [ltrim, List.dropWhile_cons, this]

theorem rtrim_eq_self {l : Line} (h : ∀ c, l.getLast? = some c → isWs c = false) :
    rtrim l = l := by
  show (ltrim l.reverse).reverse = l
  rw [ltrim_eq_self (l := l.reverse) ?_, List.reverse_reverse]
  intro c hc
  exact h c (by rwa [List.head?_reverse] at hc)

theorem trim_eq_self {l : Line}
    (h1 : ∀ c, l.head? = some c → isWs c = false)
    (h2 : ∀ c, l.getLast? = some c → isWs c = false) :
    trimChars l = l := by
  unfold trimChars
  rw [rtrim_eq_self h2]
  exact ltrim_eq_self h1

theorem trim_eq_self_of_all {l : Line} (h : ∀ c ∈ l, isWs c = false) : trimChars l = l := by
  refine trim_eq_self (fun c hc => ?_) (fun c hc => ?_)
  · exact h c (by cases l with | nil => exact absurd hc (by simp) | cons a t => simp at hc; simp [hc])
  · have : c ∈ l := by
      have : l ≠ [] := by intro e; rw [e] at hc; exact Option.noConfusion hc
      rw [List.getLast?_eq_getLast _ this] at hc
      exact (Option.some.injEq _ _ ▸ hc : _) ▸ List.getLast_mem this
    exact h c this

theorem trim_intRepr (i : Int) : trimChars (intRepr i) = intRepr i :=
  trim_eq_self_of_all fun c hc => intRepr_no_ws hc

/-! ## Basic lemmas: integer-string round trip -/

theorem is_valid_int_intRepr (i : Int) : is_valid_int (intRepr i) = true := by
  unfold is_valid_int
  rw [trim_intRepr]
  by_cases hi : i < 0
  · unfold intRepr
    simp only [hi, if_true]
    have hne := natDigits_ne_nil i.natAbs
    have hall := natDigits_all_digit i.natAbs
    simp [hne, hall]
  · unfold intRepr
    simp only [hi, if_false]
    rcases hn : natDigits i.natAbs with _ | ⟨c, rest⟩
    · exact absurd hn (natDigits_ne_nil _)
    · have hall := natDigits_all_digit i.natAbs
      rw [hn] at hall
      simp only [List.all_cons, Bool.and_eq_true] at hall
      have hcp : c ≠ '+' := char_ne_of_isDigit hall.1 (by decide)
      have hcm : c ≠ '-' := char_ne_of_isDigit hall.1 (by decide)
      simp [hcp, hcm, hall.1, hall.2]

theorem parse_int_intRepr (i : Int) : parse_int (intRepr i) = i := by
  unfold parse_int
  rw [trim_intRepr]
  by_cases hi : i < 0
  · unfold intRepr
    simp only [hi, if_true]
    rw [digitsToNat_natDigits]
    omega
  · unfold intRepr
    simp only [hi, if_false]
    rcases hn : natDigits i.natAbs with _ | ⟨c, rest⟩
    · exact absurd hn (natDigits_ne_nil _)
    · have hall := natDigits_all_digit i.natAbs
      rw [hn] at hall
      simp only [List.all_cons, Bool.and_eq_true] at hall
      have hcp : c ≠ '+' := char_ne_of_isDigit hall.1 (by decide)
      have hcm : c ≠ '-' := char_ne_of_isDigit hall.1 (by decide)
      simp only [hcm, if_false, hcp]
      rw [← hn, digitsToNat_natDigits]
      omega

/-! ## Basic lemmas: the entry store -/

theorem lookupKey_eq_none_iff {l : List ((Int × Int) × Int)} {k : Int × Int} :
    lookupKey l k = none ↔ k ∉ l.map Prod.fst := by
  induction l with
  | nil => simp [lookupKey]
  | cons e t ih =>
    obtain ⟨key, v⟩ := e
    by_cases h : key = k
    · subst h
      simp [lookupKey]
    · simp [lookupKey, h, ih, Ne.symm h]

theorem lookupKey_eraseKey_self (l : List ((Int × Int) × Int)) (k : Int × Int) :
    lookupKey (eraseKey l k) k = none := by
  induction l with
  | nil => rfl
  | cons e t ih =>
    obtain ⟨key, v⟩ := e
    by_cases h : key = k
    · rw [eraseKey, if_pos h]
      exact ih
    · rw [eraseKey, if_neg h, lookupKey, if_neg h]
      exact ih

theorem lookupKey_eraseKey_ne (l : List ((Int × Int) × Int)) {k k2 : Int × Int}
    (h : k2 ≠ k) : lookupKey (eraseKey l k) k2 = lookupKey l k2 := by
  induction l with
  | nil => rfl
  | cons e t ih =>
    obtain ⟨key, v⟩ := e
    by_cases h1 : key = k
    · have hne : key ≠ k2 := by
        rw [h1]
        exact fun e => h e.symm
      rw [eraseKey, if_pos h1, lookupKey, if_neg hne]
      exact ih
    · rw [eraseKey, if_neg h1, lookupKey, lookupKey]
      by_cases h2 : key = k2
      · rw [if_pos h2, if_pos h2]
      · rw [if_neg h2, if_neg h2]
        exact ih

theorem mem_eraseKey {l : List ((Int × Int) × Int)} {k : Int × Int}
    {e : (Int × Int) × Int} (h : e ∈ eraseKey l k) : e ∈ l ∧ e.1 ≠ k := by
  induction l with
  | nil => exact absurd h (by simp [eraseKey])
  | cons x t ih =>
    obtain ⟨key, v⟩ := x
    by_cases h1 : key = k
    · rw [eraseKey, if_pos h1] at h
      exact ⟨List.mem_cons_of_mem _ (ih h).1, (ih h).2⟩
    · rw [eraseKey, if_neg h1] at h
      rcases List.mem_cons.mp h with rfl | h2
      · exact ⟨List.mem_cons_self _ _, h1⟩
      · exact ⟨List.mem_cons_of_mem _ (ih h2).1, (ih h2).2⟩

theorem eraseKey_sublist (l : List ((Int × Int) × Int)) (k : Int × Int) :
    (eraseKey l k).Sublist l := by
  induction l with
  | nil => simp [eraseKey]
  | cons x t ih =>
    obtain ⟨key, v⟩ := x
    by_cases h1 : key = k
    · rw [eraseKey, if_pos h1]
      exact ih.cons _
    · rw [eraseKey, if_neg h1]
      exact ih.cons₂ _

theorem getv_setOk (m : SparseMatrix) (r c v r2 c2 : Int) :
    (setOk m r c v).getv r2 c2 = if (r2, c2) = (r, c) then v else m.getv r2 c2 := by
  unfold setOk setData SparseMatrix.getv
  by_cases hp : ((r2, c2) : Int × Int) = (r, c)
  · rw [if_pos hp, hp]
    by_cases hv : v = 0
    · subst hv
      rw [if_pos rfl]
      simp only [lookupKey_eraseKey_self, Option.getD_none]
    · rw [if_neg hv, lookupKey, if_pos rfl, Option.getD_some]
  · rw [if_neg hp]
    by_cases hv : v = 0
    · subst hv
      rw [if_pos rfl, lookupKey_eraseKey_ne _ hp]
    · rw [if_neg hv, lookupKey, if_neg (fun e => hp e.symm), lookupKey_eraseKey_ne _ hp]

@[simp] theorem setOk_rows (m : SparseMatrix) (r c v : Int) : (setOk m r c v).rows = m.rows := rfl
@[simp] theorem setOk_cols (m : SparseMatrix) (r c v : Int) : (setOk m r c v).cols = m.cols := rfl

theorem set_element_eq_ok {m : SparseMatrix} {r c : Int} (v : Int)
    (h : 0 ≤ r ∧ r < (m.rows : Int) ∧ 0 ≤ c ∧ c < (m.cols : Int)) :
    m.set_element r c v = .ok (setOk m r c v) := by
  unfold SparseMatrix.set_element
  rw [if_pos h]
  rfl

theorem get_element_eq_ok {m : SparseMatrix} {r c : Int}
    (h : 0 ≤ r ∧ r < (m.rows : Int) ∧ 0 ≤ c ∧ c < (m.cols : Int)) :
    m.get_element r c = .ok (m.getv r c) := by
  unfold SparseMatrix.get_element
  rw [if_pos h]
  rfl

theorem WF_setOk {m : SparseMatrix} {r c : Int} (v : Int) (hm : WF m)
    (h : 0 ≤ r ∧ r < (m.rows : Int) ∧ 0 ≤ c ∧ c < (m.cols : Int)) :
    WF (setOk m r c v) := by
  obtain ⟨hb, hnd⟩ := hm
  unfold setOk setData
  by_cases hv : v = 0
  · subst hv
    rw [if_pos rfl]
    refine ⟨fun e he => hb e (mem_eraseKey he).1, ?_⟩
    exact ((eraseKey_sublist _ _).map Prod.fst).nodup hnd
  · rw [if_neg hv]
    constructor
    · intro e he
      rcases List.mem_cons.mp he with rfl | he2
      · exact ⟨h.1, h.2.1, h.2.2.1, h.2.2.2, hv⟩
      · exact hb e (mem_eraseKey he2).1
    · rw [List.map_cons]
      refine List.Nodup.cons ?_ (((eraseKey_sublist _ _).map Prod.fst).nodup hnd)
      intro hmem
      rcases List.mem_map.mp hmem with ⟨e, he, hfst⟩
      exact (mem_eraseKey he).2 hfst

theorem WF_newMatrix (r c : Nat) : WF (newMatrix r c) :=
  ⟨fun e he => absurd he (List.not_mem_nil e), List.nodup_nil⟩

/-! ## The copy and combine loops of `operate` -/

theorem copyEntries_ok : ∀ (l : List ((Int × Int) × Int)) (acc : SparseMatrix),
    (∀ e ∈ l, inBdd acc.rows acc.cols e) → (l.map Prod.fst).Nodup →
    ∃ res, copyEntries acc l = .ok res ∧ res.rows = acc.rows ∧ res.cols = acc.cols ∧
      ∀ p : Int × Int, res.getv p.1 p.2 = (lookupKey l p).getD (acc.getv p.1 p.2) := by
  intro l
  induction l with
  | nil =>
    intro acc _ _
    exact ⟨acc, rfl, rfl, rfl, fun p => by simp [lookupKey]⟩
  | cons e t ih =>
    intro acc hbdd hnd
    obtain ⟨⟨r, c⟩, v⟩ := e
    have hb : 0 ≤ r ∧ r < (acc.rows : Int) ∧ 0 ≤ c ∧ c < (acc.cols : Int) :=
      hbdd _ (List.mem_cons_self _ _)
    rw [List.map_cons, List.nodup_cons] at hnd
    have hset := set_element_eq_ok (m := acc) v hb
    obtain ⟨res, hrun, hrows, hcols, hval⟩ :=
      ih (setOk acc r c v)
        (fun e he => by
          have := hbdd e (List.mem_cons_of_mem _ he)
          simpa [inBdd] using this)
        hnd.2
    refine ⟨res, ?_, by simpa using hrows, by simpa using hcols, ?_⟩
    · rw [copyEntries, hset]
      exact hrun
    · intro p
      rw [hval p, getv_setOk]
      by_cases hp : p = ((r, c) : Int × Int)
      · have hp2 : ((p.1, p.2) : Int × Int) = (r, c) := by rw [Prod.mk.eta, hp]
        have hnone : lookupKey t p = none :=
          lookupKey_eq_none_iff.mpr (by rw [hp]; simpa using hnd.1)
        rw [hnone, if_pos hp2, Option.getD_none, lookupKey, if_pos hp.symm, Option.getD_some]
      · have hp2 : ((p.1, p.2) : Int × Int) ≠ (r, c) := by rw [Prod.mk.eta]; exact hp
        rw [if_neg hp2, lookupKey, if_neg (fun e => hp e.symm)]

theorem combineEntries_ok (op : Int → Int → Int) :
    ∀ (l : List ((Int × Int) × Int)) (acc : SparseMatrix),
    (∀ e ∈ l, inBdd acc.rows acc.cols e) → (l.map Prod.fst).Nodup →
    ∃ res, combineEntries op acc l = .ok res ∧ res.rows = acc.rows ∧ res.cols = acc.cols ∧
      ∀ p : Int × Int, res.getv p.1 p.2 =
        (match lookupKey l p with
         | none => acc.getv p.1 p.2
         | some v => op (acc.getv p.1 p.2) v) := by
  intro l
  induction l with
  | nil =>
    intro acc _ _
    exact ⟨acc, rfl, rfl, rfl, fun p => by simp [lookupKey]⟩
  | cons e t ih =>
    intro acc hbdd hnd
    obtain ⟨⟨r, c⟩, v⟩ := e
    have hb : 0 ≤ r ∧ r < (acc.rows : Int) ∧ 0 ≤ c ∧ c < (acc.cols : Int) :=
      hbdd _ (List.mem_cons_self _ _)
    rw [List.map_cons, List.nodup_cons] at hnd
    have hget := get_element_eq_ok (m := acc) hb
    have hset := set_element_eq_ok (m := acc) (op (acc.getv r c) v) hb
    obtain ⟨res, hrun, hrows, hcols, hval⟩ :=
      ih (setOk acc r c (op (acc.getv r c) v))
        (fun e he => by
          have := hbdd e (List.mem_cons_of_mem _ he)
          simpa [inBdd] using this)
        hnd.2
    refine ⟨res, ?_, by simpa using hrows, by simpa using hcols, ?_⟩
    · rw [combineEntries]
      simp only [hget, hset]
      exact hrun
    · intro p
      rw [hval p, getv_setOk]
      by_cases hp : p = ((r, c) : Int × Int)
      · subst hp
        have hnone : lookupKey t ((r, c) : Int × Int) = none :=
          lookupKey_eq_none_iff.mpr (by simpa using hnd.1)
        simp [hnone, lookupKey]
      · have hp2 : ((p.1, p.2) : Int × Int) ≠ (r, c) := by rw [Prod.mk.eta]; exact hp
        have hco : ((r, c) : Int × Int) ≠ p := fun e => hp e.symm
        rw [lookupKey, if_neg hco]
        cases hl : lookupKey t p with
        | none => simp [if_neg hp2]
        | some w => simp [if_neg hp2]

theorem operate_ok {A B : SparseMatrix} (hA : WF A) (hB : WF B)
    (hr : A.rows = B.rows) (hc : A.cols = B.cols) (op : Int → Int → Int)
    (hop : ∀ x : Int, op x 0 = x) :
    ∃ C, A.operate B op = .ok C ∧ C.rows = A.rows ∧ C.cols = A.cols ∧
      ∀ p : Int × Int, C.getv p.1 p.2 = op (A.getv p.1 p.2) (B.getv p.1 p.2) := by
  obtain ⟨m1, hcopy, hrows1, hcols1, hval1⟩ :=
    copyEntries_ok A.matrix_data (newMatrix A.rows A.cols)
      (fun e he => by
        have := hA.1 e he
        exact ⟨this.1, this.2.1, this.2.2.1, this.2.2.2.1⟩)
      hA.2
  obtain ⟨C, hcomb, hrows2, hcols2, hval2⟩ :=
    combineEntries_ok op B.matrix_data m1
      (fun e he => by
        have := hB.1 e he
        rw [hrows1, hcols1]
        show inBdd (newMatrix A.rows A.cols).rows (newMatrix A.rows A.cols).cols e
        show inBdd A.rows A.cols e
        rw [hr, hc]
        exact ⟨this.1, this.2.1, this.2.2.1, this.2.2.2.1⟩)
      hB.2
  refine ⟨C, ?_, by rw [hrows2, hrows1]; rfl, by rw [hcols2, hcols1]; rfl, ?_⟩
  · unfold SparseMatrix.operate
    rw [if_neg (by push_neg; exact ⟨hr, hc⟩), hcopy]
    exact hcomb
  · intro p
    have hm1 : m1.getv p.1 p.2 = A.getv p.1 p.2 := by
      rw [hval1 p]
      cases he : lookupKey A.matrix_data p with
      | none => simp [SparseMatrix.getv, he, newMatrix, lookupKey]
      | some v => simp [SparseMatrix.getv, he]
    rw [hval2 p, hm1]
    cases he : lookupKey B.matrix_data p with
    | none =>
      have h0 : B.getv p.1 p.2 = 0 := by simp [SparseMatrix.getv, he]
      simp only [h0, hop]
    | some v => simp [SparseMatrix.getv, he]

theorem operate_dim_mismatch {A B : SparseMatrix} (op : Int → Int → Int)
    (h : ¬(A.rows = B.rows ∧ A.cols = B.cols)) :
    A.operate B op = .error .dimensionMismatch := by
  unfold SparseMatrix.operate
  rw [if_pos]
  by_cases h1 : A.rows = B.rows
  · exact Or.inr (fun h2 => h ⟨h1, h2⟩)
  · exact Or.inl h1

/-- C1: for matrices of equal dimensions, `add` succeeds and is
pointwise `A.get + B.get` at every in-bounds position, `subtract`
likewise is the pointwise difference, and when the dimensions differ
both fail with the dimension-mismatch error. -/
theorem C1_add_subtract_pointwise (A B : SparseMatrix) (hA : WF A) (hB : WF B) :
    ((A.rows = B.rows ∧ A.cols = B.cols) →
      (∃ C, A.add B = .ok C ∧ C.rows = A.rows ∧ C.cols = A.cols ∧
        ∀ r c : Int, 0 ≤ r → r < (A.rows : Int) → 0 ≤ c → c < (A.cols : Int) →
          C.get_element r c = .ok (A.getv r c + B.getv r c)) ∧
      (∃ D, A.subtract B = .ok D ∧ D.rows = A.rows ∧ D.cols = A.cols ∧
        ∀ r c : Int, 0 ≤ r → r < (A.rows : Int) → 0 ≤ c → c < (A.cols : Int) →
          D.get_element r c = .ok (A.getv r c - B.getv r c)))
    ∧ (¬(A.rows = B.rows ∧ A.cols = B.cols) →
        A.add B = .error .dimensionMismatch ∧ A.subtract B = .error .dimensionMismatch) := by
  constructor
  · rintro ⟨hr, hc⟩
    constructor
    · obtain ⟨C, hrun, hrows, hcols, hval⟩ :=
        operate_ok hA hB hr hc (fun x y => x + y) (fun x => add_zero x)
      refine ⟨C, hrun, hrows, hcols, fun r c h1 h2 h3 h4 => ?_⟩
      have hbd : 0 ≤ r ∧ r < (C.rows : Int) ∧ 0 ≤ c ∧ c < (C.cols : Int) := by
        rw [hrows, hcols]
        exact ⟨h1, h2, h3, h4⟩
      rw [get_element_eq_ok hbd, hval (r, c)]
    · obtain ⟨D, hrun, hrows, hcols, hval⟩ :=
        operate_ok hA hB hr hc (fun x y => x - y) (fun x => sub_zero x)
      refine ⟨D, hrun, hrows, hcols, fun r c h1 h2 h3 h4 => ?_⟩
      have hbd : 0 ≤ r ∧ r < (D.rows : Int) ∧ 0 ≤ c ∧ c < (D.cols : Int) := by
        rw [hrows, hcols]
        exact ⟨h1, h2, h3, h4⟩
      rw [get_element_eq_ok hbd, hval (r, c)]
  · intro h
    exact ⟨operate_dim_mismatch _ h, operate_dim_mismatch _ h⟩

/-- Witness for C1 at the end-to-end example of the spec: the 1×1
matrices with entries 5 and 3. -/
theorem C1_add_subtract_pointwise_witness :
    (exA.rows = exB.rows ∧ exA.cols = exB.cols) ∧
    (∃ C, exA.add exB = .ok C ∧ C.rows = exA.rows ∧ C.cols = exA.cols ∧
      ∀ r c : Int, 0 ≤ r → r < (exA.rows : Int) → 0 ≤ c → c < (exA.cols : Int) →
        C.get_element r c = .ok (exA.getv r c + exB.getv r c)) :=
  ⟨⟨rfl, rfl⟩,
    (((C1_add_subtract_pointwise exA exB (by unfold WF; decide) (by unfold WF; decide)).1
      ⟨rfl, rfl⟩).1)⟩

/-! ## Inversion lemmas for the primitive operations -/

theorem set_element_ok_inv {m : SparseMatrix} {r c v : Int} {m2 : SparseMatrix}
    (h : m.set_element r c v = .ok m2) :
    (0 ≤ r ∧ r < (m.rows : Int) ∧ 0 ≤ c ∧ c < (m.cols : Int)) ∧ m2 = setOk m r c v := by
  unfold SparseMatrix.set_element at h
  split at h
  · next hcond => exact ⟨hcond, by cases h; rfl⟩
  · exact absurd h (by simp)

theorem get_element_ok_inv {m : SparseMatrix} {r c : Int} {x : Int}
    (h : m.get_element r c = .ok x) :
    (0 ≤ r ∧ r < (m.rows : Int) ∧ 0 ≤ c ∧ c < (m.cols : Int)) ∧ x = m.getv r c := by
  unfold SparseMatrix.get_element at h
  split at h
  · next hcond => exact ⟨hcond, by cases h; rfl⟩
  · exact absurd h (by simp)

theorem validate_ok_data {m : SparseMatrix} {val d : Line} {m2 : SparseMatrix}
    (h : validate_and_set_dimension m val d = .ok m2) :
    m2.matrix_data = m.matrix_data := by
  unfold validate_and_set_dimension at h
  split at h
  · exact absurd h (by simp)
  · split at h
    · exact absurd h (by simp)
    · split at h <;> (cases h; rfl)

/-- A matrix with no stored entries is well-formed, whatever its
dimensions. -/
theorem WF_of_data_nil {m : SparseMatrix} (h : m.matrix_data = []) : WF m := by
  constructor
  · intro e he
    rw [h] at he
    exact absurd he (List.not_mem_nil e)
  · rw [h]
    exact List.nodup_nil

/-! ## WF preservation through every operation -/

theorem copyEntries_WF : ∀ (l : List ((Int × Int) × Int)) (acc res : SparseMatrix),
    WF acc → copyEntries acc l = .ok res → WF res := by
  intro l
  induction l with
  | nil =>
    intro acc res h hrun
    rw [copyEntries] at hrun
    cases hrun
    exact h
  | cons e t ih =>
    intro acc res h hrun
    obtain ⟨⟨r, c⟩, v⟩ := e
    rw [copyEntries] at hrun
    cases hset : acc.set_element r c v with
    | error e2 => rw [hset] at hrun; exact absurd hrun (by simp)
    | ok m2 =>
      rw [hset] at hrun
      obtain ⟨hbd, hm2⟩ := set_element_ok_inv hset
      exact ih m2 res (hm2 ▸ WF_setOk v h hbd) hrun

theorem combineEntries_WF (op : Int → Int → Int) :
    ∀ (l : List ((Int × Int) × Int)) (acc res : SparseMatrix),
    WF acc → combineEntries op acc l = .ok res → WF res := by
  intro l
  induction l with
  | nil =>
    intro acc res h hrun
    rw [combineEntries] at hrun
    cases hrun
    exact h
  | cons e t ih =>
    intro acc res h hrun
    obtain ⟨⟨r, c⟩, v⟩ := e
    rw [combineEntries] at hrun
    cases hget : acc.get_element r c with
    | error e2 => rw [hget] at hrun; exact absurd hrun (by simp)
    | ok cur =>
      rw [hget] at hrun
      cases hset : acc.set_element r c (op cur v) with
      | error e2 => simp only [hset] at hrun; exact absurd hrun (by simp)
      | ok m2 =>
        simp only [hset] at hrun
        obtain ⟨hbd, hm2⟩ := set_element_ok_inv hset
        exact ih m2 res (hm2 ▸ WF_setOk _ h hbd) hrun

theorem operate_WF {A B C : SparseMatrix}
    (op : Int → Int → Int) (h : A.operate B op = .ok C) : WF C := by
  unfold SparseMatrix.operate at h
  split at h
  · exact absurd h (by simp)
  · cases hcopy : copyEntries (newMatrix A.rows A.cols) A.matrix_data with
    | error e2 => rw [hcopy] at h; exact absurd h (by simp)
    | ok m1 =>
      rw [hcopy] at h
      exact combineEntries_WF op B.matrix_data m1 C
        (copyEntries_WF A.matrix_data _ m1 (WF_newMatrix _ _) hcopy) h

theorem mulInner_WF (r1 c1 v1 : Int) :
    ∀ (l : List ((Int × Int) × Int)) (acc res : SparseMatrix),
    WF acc → mulInner r1 c1 v1 acc l = .ok res → WF res := by
  intro l
  induction l with
  | nil =>
    intro acc res h hrun
    rw [mulInner] at hrun
    cases hrun
    exact h
  | cons e t ih =>
    intro acc res h hrun
    obtain ⟨⟨rB, c2⟩, v2⟩ := e
    rw [mulInner] at hrun
    by_cases hr : rB = c1
    · rw [if_pos hr] at hrun
      cases hget : acc.get_element r1 c2 with
      | error e2 => rw [hget] at hrun; exact absurd hrun (by simp)
      | ok cur =>
        rw [hget] at hrun
        cases hset : acc.set_element r1 c2 (cur + v1 * v2) with
        | error e2 => simp only [hset] at hrun; exact absurd hrun (by simp)
        | ok m2 =>
          simp only [hset] at hrun
          obtain ⟨hbd, hm2⟩ := set_element_ok_inv hset
          exact ih m2 res (hm2 ▸ WF_setOk _ h hbd) hrun
    · rw [if_neg hr] at hrun
      exact ih acc res h hrun

theorem mulOuter_WF (bEntries : List ((Int × Int) × Int)) :
    ∀ (l : List ((Int × Int) × Int)) (acc res : SparseMatrix),
    WF acc → mulOuter bEntries acc l = .ok res → WF res := by
  intro l
  induction l with
  | nil =>
    intro acc res h hrun
    rw [mulOuter] at hrun
    cases hrun
    exact h
  | cons e t ih =>
    intro acc res h hrun
    obtain ⟨⟨r1, c1⟩, v1⟩ := e
    rw [mulOuter] at hrun
    cases hin : mulInner r1 c1 v1 acc bEntries with
    | error e2 => rw [hin] at hrun; exact absurd hrun (by simp)
    | ok m2 =>
      rw [hin] at hrun
      exact ih m2 res (mulInner_WF r1 c1 v1 bEntries acc m2 h hin) hrun

theorem multiply_WF {A B C : SparseMatrix} (h : A.multiply B = .ok C) : WF C := by
  unfold SparseMatrix.multiply at h
  split at h
  · exact absurd h (by simp)
  · exact mulOuter_WF B.matrix_data A.matrix_data _ C (WF_newMatrix _ _) h

/-! ## Parser state invariant -/

theorem rowsHeaderStep_cont_inv {line : Line} {n : Nat} {pr pc pr2 pc2 : Bool}
    {m m2 : SparseMatrix}
    (h : rowsHeaderStep line n pr pc m = .cont pr2 pc2 m2) :
    pr = false ∧ pr2 = true ∧ pc2 = pc ∧ m2.matrix_data = m.matrix_data := by
  unfold rowsHeaderStep at h
  split at h
  · exact absurd h (by simp)
  · next hpr =>
    have hprf : pr = false := by
      cases pr
      · rfl
      · exact absurd rfl hpr
    split at h
    · next val rest heq =>
      split at h
      · next mv hveq =>
        cases h
        exact ⟨hprf, rfl, rfl, validate_ok_data hveq⟩
      · next e2 hveq =>
        split at h <;> exact absurd h (by simp)
    · exact absurd h (by simp)

theorem colsHeaderStep_cont_inv {line : Line} {n : Nat} {pr pc pr2 pc2 : Bool}
    {m m2 : SparseMatrix}
    (h : colsHeaderStep line n pr pc m = .cont pr2 pc2 m2) :
    pc = false ∧ pc2 = true ∧ pr2 = pr ∧ m2.matrix_data = m.matrix_data := by
  unfold colsHeaderStep at h
  split at h
  · exact absurd h (by simp)
  · next hpc =>
    have hpcf : pc = false := by
      cases pc
      · rfl
      · exact absurd rfl hpc
    split at h
    · next val rest heq =>
      split at h
      · next mv hveq =>
        cases h
        exact ⟨hpcf, rfl, rfl, validate_ok_data hveq⟩
      · next e2 hveq =>
        split at h <;> exact absurd h (by simp)
    · exact absurd h (by simp)

theorem dataLineStep_cont_inv {line : Line} {n : Nat} {pr pc pr2 pc2 : Bool}
    {m m2 : SparseMatrix}
    (h : dataLineStep line n pr pc m = .cont pr2 pc2 m2) :
    pr2 = pr ∧ pc2 = pc ∧ pr = true ∧ pc = true ∧
      ∃ r c v, m.set_element r c v = .ok m2 := by
  unfold dataLineStep at h
  split at h
  · exact absurd h (by simp)
  · next hand =>
    have hprpc : pr = true ∧ pc = true := by
      cases pr <;> cases pc <;> simp_all
    split at h
    · exact absurd h (by simp)
    · split at h
      · next rs cs vs heq =>
        split at h
        · split at h
          · next mv hset =>
            cases h
            exact ⟨rfl, rfl, hprpc.1, hprpc.2, _, _, _, hset⟩
          · next e2 hset => exact absurd h (by simp)
        · exact absurd h (by simp)
      · exact absurd h (by simp)

theorem stepTrimmed_cont_inv {line : Line} {n : Nat} {pr pc pr2 pc2 : Bool}
    {m m2 : SparseMatrix} (hinv : StateInv pr pc m)
    (h : stepTrimmed line n pr pc m = .cont pr2 pc2 m2) :
    StateInv pr2 pc2 m2 := by
  unfold stepTrimmed at h
  split at h
  · cases h
    exact hinv
  · split at h
    · obtain ⟨hprf, hpr2, hpc2, hdata⟩ := rowsHeaderStep_cont_inv h
      have hnil : m.matrix_data = [] := by
        rcases hinv.2 with h1 | h1
        · exact h1
        · rw [h1.1] at hprf
          exact absurd hprf (by simp)
      rw [hnil] at hdata
      exact ⟨WF_of_data_nil hdata, Or.inl hdata⟩
    · split at h
      · obtain ⟨hpcf, hpc2, hpr2, hdata⟩ := colsHeaderStep_cont_inv h
        have hnil : m.matrix_data = [] := by
          rcases hinv.2 with h1 | h1
          · exact h1
          · rw [h1.2] at hpcf
            exact absurd hpcf (by simp)
        rw [hnil] at hdata
        exact ⟨WF_of_data_nil hdata, Or.inl hdata⟩
      · split at h
        · obtain ⟨hpr2, hpc2, hpr, hpc, r, c, v, hset⟩ := dataLineStep_cont_inv h
          obtain ⟨hbd, hm2⟩ := set_element_ok_inv hset
          subst hpr2
          subst hpc2
          exact ⟨hm2 ▸ WF_setOk v hinv.1 hbd, Or.inr ⟨hpr, hpc⟩⟩
        · exact absurd h (by simp)

theorem parseLinesAux_WF : ∀ (lines : List Line) (idx : Nat) (pr pc : Bool)
    (m res : SparseMatrix), StateInv pr pc m →
    parseLinesAux lines idx pr pc m = .ok res → WF res := by
  intro lines
  induction lines with
  | nil =>
    intro idx pr pc m res hinv hrun
    rw [parseLinesAux] at hrun
    split at hrun
    · cases hrun
      exact hinv.1
    · exact absurd hrun (by simp)
  | cons raw rest ih =>
    intro idx pr pc m res hinv hrun
    rw [parseLinesAux] at hrun
    cases hstep : parseStep raw (idx + 1) pr pc m with
    | cont pr2 pc2 m2 =>
      rw [hstep] at hrun
      exact ih (idx + 1) pr2 pc2 m2 res (stepTrimmed_cont_inv hinv hstep) hrun
    | fail e =>
      rw [hstep] at hrun
      exact absurd hrun (by simp)

theorem parse_file_WF {lines : List Line} {m : SparseMatrix}
    (h : parse_file lines = .ok m) : WF m :=
  parseLinesAux_WF lines 0 false false ⟨0, 0, []⟩ m
    ⟨WF_of_data_nil rfl, Or.inl rfl⟩ h

/-- C4: every construction path and every operation yields a matrix
satisfying the representation invariant (no zero values stored, every
key strictly inside `[0, rows) × [0, cols)`, keys unique), and
`set_element` maintains it, with a zero value deleting the stored
entry at that key. -/
theorem C4_invariant_all_operations :
    (∀ (r c : Int) (m : SparseMatrix), SparseMatrix.fromDims r c = .ok m → WF m)
    ∧ (∀ (lines : List Line) (m : SparseMatrix), parse_file lines = .ok m → WF m)
    ∧ (∀ (m : SparseMatrix) (r c v : Int) (m2 : SparseMatrix), WF m →
        m.set_element r c v = .ok m2 →
        WF m2 ∧ (v = 0 → lookupKey m2.matrix_data (r, c) = none))
    ∧ (∀ (A B C : SparseMatrix) (op : Int → Int → Int),
        A.operate B op = .ok C → WF C)
    ∧ (∀ A B C : SparseMatrix, A.add B = .ok C → WF C)
    ∧ (∀ A B C : SparseMatrix, A.subtract B = .ok C → WF C)
    ∧ (∀ A B C : SparseMatrix, A.multiply B = .ok C → WF C) := by
  refine ⟨?_, ?_, ?_, ?_, ?_, ?_, ?_⟩
  · intro r c m h
    unfold SparseMatrix.fromDims at h
    split at h
    · exact absurd h (by simp)
    · cases h
      exact WF_of_data_nil rfl
  · exact fun lines m h => parse_file_WF h
  · intro m r c v m2 hm h
    obtain ⟨hbd, hm2⟩ := set_element_ok_inv h
    refine ⟨hm2 ▸ WF_setOk v hm hbd, fun hv => ?_⟩
    subst hv
    rw [hm2]
    show lookupKey (setData m.matrix_data r c 0) (r, c) = none
    unfold setData
    rw [if_pos rfl]
    exact lookupKey_eraseKey_self _ _
  · exact fun A B C op h => operate_WF op h
  · exact fun A B C h => operate_WF _ h
  · exact fun A B C h => operate_WF _ h
  · exact fun A B C h => multiply_WF h

/-- Witness for C4: setting entry (0,0) of the 1×1 example matrix to 0
removes the stored entry and preserves the invariant. -/
theorem C4_invariant_all_operations_witness :
    WF (setOk exA 0 0 0) ∧ lookupKey (setOk exA 0 0 0).matrix_data (0, 0) = none := by
  obtain ⟨-, -, hset, -⟩ := C4_invariant_all_operations
  have h := hset exA 0 0 0 (setOk exA 0 0 0) (by unfold WF; decide) (by rfl)
  exact ⟨h.1, h.2 rfl⟩

/-! ## Frame lemmas for the heap model -/

theorem hset_frame {h : Heap} {k : Nat} {r c v : Int} {h2 : Heap}
    (hs : hset h k r c v = .ok h2) : ∀ t, t ≠ k → h2[t]? = h[t]? := by
  unfold hset at hs
  split at hs
  · next m heq =>
    split at hs
    · next m2 hs2 =>
      cases hs
      exact fun t ht => List.getElem?_set_ne (Ne.symm ht)
    · exact absurd hs (by simp)
  · exact absurd hs (by simp)

theorem hcopy_frame (k : Nat) : ∀ (l : List ((Int × Int) × Int)) (h : Heap),
    ∀ t, t ≠ k → (hcopy k h l).1[t]? = h[t]? := by
  intro l
  induction l with
  | nil => intro h t ht; rfl
  | cons e rest ih =>
    intro h t ht
    obtain ⟨⟨r, c⟩, v⟩ := e
    rw [hcopy]
    cases hs : hset h k r c v with
    | ok h2 => rw [(ih h2 t ht : _), hset_frame hs t ht]
    | error e2 => rfl

theorem hcombine_frame (op : Int → Int → Int) (k : Nat) :
    ∀ (l : List ((Int × Int) × Int)) (h : Heap),
    ∀ t, t ≠ k → (hcombine op k h l).1[t]? = h[t]? := by
  intro l
  induction l with
  | nil => intro h t ht; rfl
  | cons e rest ih =>
    intro h t ht
    obtain ⟨⟨r, c⟩, v⟩ := e
    rw [hcombine]
    cases hg : hget h k r c with
    | ok cur =>
      cases hs : hset h k r c (op cur v) with
      | ok h2 =>
        simp only [hs]
        rw [(ih h2 t ht : _), hset_frame hs t ht]
      | error e2 => simp only [hs]
    | error e2 => rfl

theorem hmulInner_frame (r1 c1 v1 : Int) (k : Nat) :
    ∀ (l : List ((Int × Int) × Int)) (h : Heap),
    ∀ t, t ≠ k → (hmulInner r1 c1 v1 k h l).1[t]? = h[t]? := by
  intro l
  induction l with
  | nil => intro h t ht; rfl
  | cons e rest ih =>
    intro h t ht
    obtain ⟨⟨rB, c2⟩, v2⟩ := e
    rw [hmulInner]
    by_cases hr : rB = c1
    · rw [if_pos hr]
      cases hg : hget h k r1 c2 with
      | ok cur =>
        cases hs : hset h k r1 c2 (cur + v1 * v2) with
        | ok h2 =>
          simp only [hs]
          rw [(ih h2 t ht : _), hset_frame hs t ht]
        | error e2 => simp only [hs]
      | error e2 => rfl
    · rw [if_neg hr]
      exact ih h t ht

theorem hmulOuter_frame (bEntries : List ((Int × Int) × Int)) (k : Nat) :
    ∀ (l : List ((Int × Int) × Int)) (h : Heap),
    ∀ t, t ≠ k → (hmulOuter bEntries k h l).1[t]? = h[t]? := by
  intro l
  induction l with
  | nil => intro h t ht; rfl
  | cons e rest ih =>
    intro h t ht
    obtain ⟨⟨r1, c1⟩, v1⟩ := e
    rw [hmulOuter]
    cases hin : hmulInner r1 c1 v1 k h bEntries with
    | mk h2 oe =>
      cases oe with
      | none =>
        simp only []
        rw [(ih h2 t ht : _)]
        have hfr := hmulInner_frame r1 c1 v1 k bEntries h t ht
        rw [hin] at hfr
        exact hfr
      | some e2 =>
        simp only []
        have hfr := hmulInner_frame r1 c1 v1 k bEntries h t ht
        rw [hin] at hfr
        exact hfr

theorem getElem?_append_left_of_lt {h : Heap} {m : SparseMatrix} {t : Nat}
    (ht : t < h.length) : (h ++ [m])[t]? = h[t]? := by
  rw [List.getElem?_append, if_pos ht]

theorem operateH_frame (h : Heap) (i j : Nat) (op : Int → Int → Int) :
    (operateH h i j op).1[i]? = h[i]? ∧ (operateH h i j op).1[j]? = h[j]? ∧
      ∀ k, (operateH h i j op).2 = .ok k → k ≠ i ∧ k ≠ j := by
  unfold operateH
  cases hi : h[i]? with
  | none =>
    cases hj : h[j]? with
    | none => exact ⟨by simp [hi], by simp [hj], fun k hk => absurd hk (by simp)⟩
    | some b => exact ⟨by simp [hi], by simp [hj], fun k hk => absurd hk (by simp)⟩
  | some a =>
    cases hj : h[j]? with
    | none => exact ⟨by simp [hi], by simp [hj], fun k hk => absurd hk (by simp)⟩
    | some b =>
      have hilt : i < h.length := (List.getElem?_eq_some.mp hi).1
      have hjlt : j < h.length := (List.getElem?_eq_some.mp hj).1
      simp only []
      split
      · exact ⟨by simp [hi], by simp [hj], fun k hk => absurd hk (by simp)⟩
      · cases hcp : hcopy h.length (h ++ [newMatrix a.rows a.cols]) a.matrix_data with
        | mk h2 oe =>
          have hcfr : ∀ t, t ≠ h.length → h2[t]? = h[t]? := by
            intro t ht
            have hx := hcopy_frame h.length a.matrix_data
              (h ++ [newMatrix a.rows a.cols]) t ht
            rw [hcp] at hx
            rcases Nat.lt_or_ge t h.length with hlt | hge
            · rw [hx]
              exact getElem?_append_left_of_lt hlt
            · have h1 : h[t]? = none := by
                rw [List.getElem?_eq_none_iff]
                omega
              have h2e : (h ++ [newMatrix a.rows a.cols])[t]? = none := by
                rw [List.getElem?_eq_none_iff]
                simp only [List.length_append, List.length_cons, List.length_nil]
                omega
              rw [hx, h1, h2e]
          cases oe with
          | some e =>
            exact ⟨(hcfr i (by omega)).trans hi, (hcfr j (by omega)).trans hj,
              fun k hk => absurd hk (by simp)⟩
          | none =>
            simp only []
            cases hcb : hcombine op h.length h2 b.matrix_data with
            | mk h3 oe2 =>
              have hbfr : ∀ t, t ≠ h.length → h3[t]? = h2[t]? := by
                intro t ht
                have hx := hcombine_frame op h.length b.matrix_data h2 t ht
                rw [hcb] at hx
                exact hx
              cases oe2 with
              | none =>
                refine ⟨((hbfr i (by omega)).trans (hcfr i (by omega))).trans hi,
                        ((hbfr j (by omega)).trans (hcfr j (by omega))).trans hj, ?_⟩
                intro k hk
                have hkk : k = h.length := by
                  have hke : Except.ok (ε := MatrixError) h.length = .ok k := hk
                  cases hke
                  rfl
                omega
              | some e =>
                exact ⟨((hbfr i (by omega)).trans (hcfr i (by omega))).trans hi,
                       ((hbfr j (by omega)).trans (hcfr j (by omega))).trans hj,
                       fun k hk => absurd hk (by simp)⟩

theorem multiplyH_frame (h : Heap) (i j : Nat) :
    (multiplyH h i j).1[i]? = h[i]? ∧ (multiplyH h i j).1[j]? = h[j]? ∧
      ∀ k, (multiplyH h i j).2 = .ok k → k ≠ i ∧ k ≠ j := by
  unfold multiplyH
  cases hi : h[i]? with
  | none =>
    cases hj : h[j]? with
    | none => exact ⟨by simp [hi], by simp [hj], fun k hk => absurd hk (by simp)⟩
    | some b => exact ⟨by simp [hi], by simp [hj], fun k hk => absurd hk (by simp)⟩
  | some a =>
    cases hj : h[j]? with
    | none => exact ⟨by simp [hi], by simp [hj], fun k hk => absurd hk (by simp)⟩
    | some b =>
      have hilt : i < h.length := (List.getElem?_eq_some.mp hi).1
      have hjlt : j < h.length := (List.getElem?_eq_some.mp hj).1
      simp only []
      split
      · exact ⟨by simp [hi], by simp [hj], fun k hk => absurd hk (by simp)⟩
      · cases hmo : hmulOuter b.matrix_data h.length
            (h ++ [newMatrix a.rows b.cols]) a.matrix_data with
        | mk h2 oe =>
          have hcfr : ∀ t, t ≠ h.length → h2[t]? = h[t]? := by
            intro t ht
            have hx := hmulOuter_frame b.matrix_data h.length a.matrix_data
              (h ++ [newMatrix a.rows b.cols]) t ht
            rw [hmo] at hx
            rcases Nat.lt_or_ge t h.length with hlt | hge
            · rw [hx]
              exact getElem?_append_left_of_lt hlt
            · have h1 : h[t]? = none := by
                rw [List.getElem?_eq_none_iff]
                omega
              have h2e : (h ++ [newMatrix a.rows b.cols])[t]? = none := by
                rw [List.getElem?_eq_none_iff]
                simp only [List.length_append, List.length_cons, List.length_nil]
                omega
              rw [hx, h1, h2e]
          cases oe with
          | none =>
            refine ⟨(hcfr i (by omega)).trans hi, (hcfr j (by omega)).trans hj, ?_⟩
            intro k hk
            have hkk : k = h.length := by
              have hke : Except.ok (ε := MatrixError) h.length = .ok k := hk
              cases hke
              rfl
            omega
          | some e =>
            exact ⟨(hcfr i (by omega)).trans hi, (hcfr j (by omega)).trans hj,
              fun k hk => absurd hk (by simp)⟩

/-- C8: in the reference-semantics (heap) model, `operate` (hence
`add`/`subtract`) and `multiply` leave both operand heap cells exactly
as they were — whether the operation succeeds or fails — and a
successful result lives at a reference distinct from both operands. -/
theorem C8_operations_never_mutate_operands (h : Heap) (i j : Nat) (op : Int → Int → Int) :
    ((operateH h i j op).1[i]? = h[i]? ∧ (operateH h i j op).1[j]? = h[j]? ∧
      ∀ k, (operateH h i j op).2 = .ok k → k ≠ i ∧ k ≠ j)
    ∧ ((multiplyH h i j).1[i]? = h[i]? ∧ (multiplyH h i j).1[j]? = h[j]? ∧
      ∀ k, (multiplyH h i j).2 = .ok k → k ≠ i ∧ k ≠ j) :=
  ⟨operateH_frame h i j op, multiplyH_frame h i j⟩

/-- Witness for C8 on the concrete two-matrix heap: adding cells 0 and
1 leaves both operands stored unchanged and returns the fresh cell 2. -/
theorem C8_operations_never_mutate_operands_witness :
    (operateH [exA, exB] 0 1 (fun x y => x + y)).1[0]? = some exA ∧
    (operateH [exA, exB] 0 1 (fun x y => x + y)).1[1]? = some exB ∧
    (2 : Nat) ≠ 0 ∧ (2 : Nat) ≠ 1 := by
  have h := C8_operations_never_mutate_operands [exA, exB] 0 1 (fun x y => x + y)
  refine ⟨?_, ?_, ?_, ?_⟩
  · rw [h.1.1]
    rfl
  · rw [h.1.2.1]
    rfl
  · exact (h.1.2.2 2 (by rfl)).1
  · exact (h.1.2.2 2 (by rfl)).2

/-! ## Value semantics of `multiply` -/

@[simp] theorem entrySumAt_nil (key : Int × Int) : entrySumAt key [] = 0 := rfl

theorem entrySumAt_cons (key : Int × Int) (e : (Int × Int) × Int)
    (t : List ((Int × Int) × Int)) :
    entrySumAt key (e :: t) = (if e.1 = key then e.2 else 0) + entrySumAt key t := by
  simp [entrySumAt]

theorem entrySumAt_eq_zero {key : Int × Int} {l : List ((Int × Int) × Int)}
    (h : key ∉ l.map Prod.fst) : entrySumAt key l = 0 := by
  induction l with
  | nil => rfl
  | cons e t ih =>
    rw [List.map_cons] at h
    have h1 : e.1 ≠ key := fun he => h (by rw [← he]; exact List.mem_cons_self _ _)
    have h2 : key ∉ t.map Prod.fst := fun he => h (List.mem_cons_of_mem _ he)
    rw [entrySumAt_cons, if_neg h1, ih h2]
    simp

theorem entrySumAt_eq_lookup {l : List ((Int × Int) × Int)} (key : Int × Int)
    (hnd : (l.map Prod.fst).Nodup) :
    entrySumAt key l = (lookupKey l key).getD 0 := by
  induction l with
  | nil => rfl
  | cons e t ih =>
    obtain ⟨k0, v0⟩ := e
    rw [List.map_cons, List.nodup_cons] at hnd
    rw [entrySumAt_cons, lookupKey]
    by_cases h : k0 = key
    · subst h
      rw [if_pos rfl, if_pos rfl, Option.getD_some,
        entrySumAt_eq_zero (by simpa using hnd.1)]
      simp
    · rw [if_neg h, if_neg h, ih hnd.2]
      simp

theorem mulInner_ok (r1 c1 v1 : Int) : ∀ (l : List ((Int × Int) × Int))
    (acc : SparseMatrix), (0 ≤ r1 ∧ r1 < (acc.rows : Int)) →
    (∀ e ∈ l, 0 ≤ e.1.2 ∧ e.1.2 < (acc.cols : Int)) →
    ∃ acc2, mulInner r1 c1 v1 acc l = .ok acc2 ∧ acc2.rows = acc.rows ∧
      acc2.cols = acc.cols ∧
      ∀ p : Int × Int, acc2.getv p.1 p.2 =
        acc.getv p.1 p.2 + (if p.1 = r1 then v1 * entrySumAt (c1, p.2) l else 0) := by
  intro l
  induction l with
  | nil =>
    intro acc hr hc
    refine ⟨acc, rfl, rfl, rfl, fun p => ?_⟩
    simp
  | cons e t ih =>
    intro acc hr hc
    obtain ⟨⟨rB, c2⟩, v2⟩ := e
    have hc2 : 0 ≤ c2 ∧ c2 < (acc.cols : Int) := hc _ (List.mem_cons_self _ _)
    by_cases hrB : rB = c1
    · subst hrB
      have hbd : 0 ≤ r1 ∧ r1 < (acc.rows : Int) ∧ 0 ≤ c2 ∧ c2 < (acc.cols : Int) :=
        ⟨hr.1, hr.2, hc2.1, hc2.2⟩
      have hget := get_element_eq_ok (m := acc) hbd
      have hset := set_element_eq_ok (m := acc) (acc.getv r1 c2 + v1 * v2) hbd
      obtain ⟨acc2, hrun, hrows, hcols, hval⟩ :=
        ih (setOk acc r1 c2 (acc.getv r1 c2 + v1 * v2))
          (by rw [setOk_rows]; exact hr)
          (fun e he => by rw [setOk_cols]; exact hc _ (List.mem_cons_of_mem _ he))
      refine ⟨acc2, ?_, by simpa using hrows, by simpa using hcols, ?_⟩
      · rw [mulInner, if_pos rfl, hget]
        simp only [hset]
        exact hrun
      · intro p
        rw [hval p, getv_setOk, entrySumAt_cons]
        by_cases hp1 : p.1 = r1
        · by_cases hp2 : p.2 = c2
          · have hp : ((p.1, p.2) : Int × Int) = (r1, c2) := by rw [hp1, hp2]
            have hhead : ((rB, c2) : Int × Int) = (rB, p.2) := by rw [hp2]
            rw [if_pos hp, if_pos hp1, if_pos hp1, if_pos hhead, hp1, hp2]
            ring
          · have hp : ((p.1, p.2) : Int × Int) ≠ (r1, c2) := by
              intro he
              exact hp2 (congrArg Prod.snd he)
            have hhead : ((rB, c2) : Int × Int) ≠ (rB, p.2) := by
              intro he
              exact hp2 ((congrArg Prod.snd he).symm)
            rw [if_neg hp, if_pos hp1, if_pos hp1, if_neg hhead]
            ring
        · have hp : ((p.1, p.2) : Int × Int) ≠ (r1, c2) := by
            intro he
            exact hp1 (congrArg Prod.fst he)
          rw [if_neg hp, if_neg hp1, if_neg hp1]
    · obtain ⟨acc2, hrun, hrows, hcols, hval⟩ :=
        ih acc hr (fun e he => hc _ (List.mem_cons_of_mem _ he))
      refine ⟨acc2, ?_, hrows, hcols, ?_⟩
      · rw [mulInner, if_neg hrB]
        exact hrun
      · intro p
        rw [hval p, entrySumAt_cons,
          if_neg (fun he => hrB (congrArg Prod.fst he : rB = c1))]
        simp

theorem mulOuter_ok (bEntries : List ((Int × Int) × Int)) :
    ∀ (l : List ((Int × Int) × Int)) (acc : SparseMatrix),
    (∀ e ∈ l, 0 ≤ e.1.1 ∧ e.1.1 < (acc.rows : Int)) →
    (∀ e ∈ bEntries, 0 ≤ e.1.2 ∧ e.1.2 < (acc.cols : Int)) →
    ∃ res, mulOuter bEntries acc l = .ok res ∧ res.rows = acc.rows ∧
      res.cols = acc.cols ∧
      ∀ p : Int × Int, res.getv p.1 p.2 = acc.getv p.1 p.2 + outerSum p l bEntries := by
  intro l
  induction l with
  | nil =>
    intro acc hrow hcol
    refine ⟨acc, rfl, rfl, rfl, fun p => ?_⟩
    simp [outerSum]
  | cons e t ih =>
    intro acc hrow hcol
    obtain ⟨⟨r1, c1⟩, v1⟩ := e
    have hr1 : 0 ≤ r1 ∧ r1 < (acc.rows : Int) := hrow _ (List.mem_cons_self _ _)
    obtain ⟨acc1, hin, hrows1, hcols1, hval1⟩ :=
      mulInner_ok r1 c1 v1 bEntries acc hr1 (fun e he => hcol _ he)
    obtain ⟨res, hrun, hrows2, hcols2, hval2⟩ :=
      ih acc1
        (fun e he => by rw [hrows1]; exact hrow _ (List.mem_cons_of_mem _ he))
        (fun e he => by rw [hcols1]; exact hcol _ he)
    refine ⟨res, ?_, hrows2.trans hrows1, hcols2.trans hcols1, ?_⟩
    · rw [mulOuter, hin]
      exact hrun
    · intro p
      rw [hval2 p, hval1 p]
      unfold outerSum
      rw [List.map_cons, List.sum_cons]
      ring

theorem rowSum_eq_finsetSum (r : Int) (f : Int → Int) (cols : Nat) :
    ∀ (l : List ((Int × Int) × Int)), (l.map Prod.fst).Nodup →
    (∀ e ∈ l, 0 ≤ e.1.2 ∧ e.1.2 < (cols : Int)) →
    (l.map (fun e => if r = e.1.1 then e.2 * f e.1.2 else 0)).sum =
      ∑ k ∈ Finset.range cols, ((lookupKey l (r, (k : Int))).getD 0) * f (k : Int) := by
  intro l
  induction l with
  | nil => simp [lookupKey]
  | cons e t ih =>
    obtain ⟨⟨r0, c0⟩, v0⟩ := e
    intro hnd hbd
    rw [List.map_cons, List.nodup_cons] at hnd
    have hc0 : 0 ≤ c0 ∧ c0 < (cols : Int) := by
      have hh := hbd _ (List.mem_cons_self _ _)
      exact ⟨hh.1, hh.2⟩
    have hbdt : ∀ e ∈ t, 0 ≤ e.1.2 ∧ e.1.2 < (cols : Int) :=
      fun e he => hbd _ (List.mem_cons_of_mem _ he)
    rw [List.map_cons, List.sum_cons, ih hnd.2 hbdt]
    by_cases hr0 : r = r0
    · have hkey : ∀ k ∈ Finset.range cols,
          ((lookupKey (((r0, c0), v0) :: t) (r, (k : Int))).getD 0) * f (k : Int) =
          ((lookupKey t (r, (k : Int))).getD 0) * f (k : Int)
            + (if k = c0.toNat then v0 * f c0 else 0) := by
        intro k hk
        rw [lookupKey]
        by_cases hkc : ((k : Nat) : Int) = c0
        · have hpair : ((r0, c0) : Int × Int) = (r, (k : Int)) := by
            rw [← hr0, ← hkc]
          have hlt : lookupKey t (r, (k : Int)) = none := by
            apply lookupKey_eq_none_iff.mpr
            rw [← hpair]
            simpa using hnd.1
          have hkn : k = c0.toNat := by omega
          rw [if_pos hpair, Option.getD_some, hlt, if_pos hkn, hkc]
          simp
        · have hpair : ((r0, c0) : Int × Int) ≠ (r, (k : Int)) :=
            fun he => hkc ((congrArg Prod.snd he).symm)
          have hkn : k ≠ c0.toNat := by omega
          rw [if_neg hpair, if_neg hkn, add_zero]
      rw [Finset.sum_congr rfl hkey, Finset.sum_add_distrib, if_pos hr0]
      have hsum : (∑ k ∈ Finset.range cols, if k = c0.toNat then v0 * f c0 else 0)
          = v0 * f c0 := by
        rw [Finset.sum_ite_eq' (Finset.range cols) c0.toNat (fun _ => v0 * f c0),
          if_pos (Finset.mem_range.mpr (by omega))]
      rw [hsum]
      ring
    · have hkey : ∀ k ∈ Finset.range cols,
          ((lookupKey (((r0, c0), v0) :: t) (r, (k : Int))).getD 0) * f (k : Int) =
          ((lookupKey t (r, (k : Int))).getD 0) * f (k : Int) := by
        intro k hk
        rw [lookupKey, if_neg (fun he => hr0 ((congrArg Prod.fst he).symm))]
      rw [Finset.sum_congr rfl hkey, if_neg hr0, zero_add]

theorem multiply_ok {A B : SparseMatrix} (hA : WF A) (hB : WF B)
    (hdim : A.cols = B.rows) :
    ∃ C, A.multiply B = .ok C ∧ C.rows = A.rows ∧ C.cols = B.cols ∧
      ∀ r c : Int, C.getv r c =
        ∑ k ∈ Finset.range A.cols, A.getv r (k : Int) * B.getv (k : Int) c := by
  obtain ⟨res, hrun, hrows, hcols, hval⟩ :=
    mulOuter_ok B.matrix_data A.matrix_data (newMatrix A.rows B.cols)
      (fun e he => ⟨(hA.1 e he).1, (hA.1 e he).2.1⟩)
      (fun e he => ⟨(hB.1 e he).2.2.1, (hB.1 e he).2.2.2.1⟩)
  refine ⟨res, ?_, hrows, hcols, ?_⟩
  · unfold SparseMatrix.multiply
    rw [if_neg (fun h => h hdim)]
    exact hrun
  · intro r c
    have hval2 := hval (r, c)
    have hz : (newMatrix A.rows B.cols).getv r c = 0 := rfl
    rw [show res.getv r c = res.getv (r, c).1 (r, c).2 from rfl, hval2, hz, zero_add]
    unfold outerSum
    have hcongr : A.matrix_data.map
        (fun e => if (r, c).1 = e.1.1 then e.2 * entrySumAt (e.1.2, (r, c).2) B.matrix_data else 0)
        = A.matrix_data.map (fun e => if r = e.1.1 then e.2 * B.getv e.1.2 c else 0) := by
      apply List.map_congr_left
      intro e he
      rw [entrySumAt_eq_lookup _ hB.2]
      rfl
    rw [hcongr, rowSum_eq_finsetSum r (fun k => B.getv k c) A.cols A.matrix_data hA.2
      (fun e he => ⟨(hA.1 e he).2.2.1, (hA.1 e he).2.2.2.1⟩)]
    rfl

/-- C2: for `A.cols = B.rows`, `multiply` succeeds with an
`A.rows × B.cols` result whose every in-bounds cell is the full inner
product `∑ k < A.cols, A.get(r,k) * B.get(k,c)`; with incompatible
dimensions it fails; and on the spec example it yields exactly
`(0,0,11)`. -/
theorem C2_multiply_correct (A B : SparseMatrix) (hA : WF A) (hB : WF B) :
    (A.cols = B.rows →
      ∃ C, A.multiply B = .ok C ∧ C.rows = A.rows ∧ C.cols = B.cols ∧
        ∀ r c : Int, 0 ≤ r → r < (A.rows : Int) → 0 ≤ c → c < (B.cols : Int) →
          C.get_element r c =
            .ok (∑ k ∈ Finset.range A.cols, A.getv r (k : Int) * B.getv (k : Int) c))
    ∧ (A.cols ≠ B.rows → A.multiply B = .error .incompatibleDimensions)
    ∧ exM1.multiply exM2 = .ok ⟨2, 2, [((0, 0), 11)]⟩ := by
  refine ⟨?_, ?_, ?_⟩
  · intro hdim
    obtain ⟨C, hrun, hrows, hcols, hval⟩ := multiply_ok hA hB hdim
    refine ⟨C, hrun, hrows, hcols, fun r c h1 h2 h3 h4 => ?_⟩
    rw [get_element_eq_ok (by rw [hrows, hcols]; exact ⟨h1, h2, h3, h4⟩), hval r c]
  · intro h
    unfold SparseMatrix.multiply
    rw [if_pos h]
  · rfl

/-- Witness for C2 at the spec example matrices. -/
theorem C2_multiply_correct_witness :
    exM1.cols = exM2.rows ∧
    ∃ C, exM1.multiply exM2 = .ok C ∧ C.rows = exM1.rows ∧ C.cols = exM2.cols ∧
      ∀ r c : Int, 0 ≤ r → r < (exM1.rows : Int) → 0 ≤ c → c < (exM2.cols : Int) →
        C.get_element r c =
          .ok (∑ k ∈ Finset.range exM1.cols, exM1.getv r (k : Int) * exM2.getv (k : Int) c) :=
  ⟨rfl, (C2_multiply_correct exM1 exM2 (by unfold WF; decide) (by unfold WF; decide)).1 rfl⟩

/-! ## Line numbers in parse-error messages (claim C5) -/

/-- Counterexample to C5: the third line of
`rows=2 / cols=2 / rows=3` violates the format (duplicate header), yet
the message raised carries no line number — in particular it does not
contain `3`. -/
theorem C5_line_number_counterexample :
    parse_file [("rows=2").data, ("cols=2").data, ("rows=3").data] =
      .error .duplicateRowsHeader ∧
    ¬ (natDigits 3 <:+: MatrixError.message .duplicateRowsHeader) := by
  constructor
  · rfl
  · decide

/-- C5 amended: among the format failures, exactly the invalid-data-entry
and unrecognized-line failures carry the 1-based violating line number
in their message. -/
theorem C5_line_number_amended (lines : List Line) (e : MatrixError)
    (h : parse_file lines = .error e) :
    (∀ n, e = .malformedEntry n → natDigits n <:+: e.message) ∧
    (∀ n, e = .unrecognizedLine n → natDigits n <:+: e.message) := by
  constructor
  · rintro n rfl
    rw [MatrixError.message]
    exact (List.suffix_append _ _).isInfix
  · rintro n rfl
    rw [MatrixError.message]
    exact (List.suffix_append _ _).isInfix

/-- Witness for the amended C5: a file whose third line has only two
fields fails with an invalid-data-entry message containing `3`. -/
theorem C5_line_number_amended_witness :
    natDigits 3 <:+: (MatrixError.malformedEntry 3).message :=
  (C5_line_number_amended [("rows=2").data, ("cols=2").data, ("(0,0)").data]
    (.malformedEntry 3) (by rfl)).1 3 rfl

/-! ## The `-1` header convention (claim C7) -/

/-- C7: a header value that parses to `-1` is accepted and sets the
corresponding dimension to 0, any valid header value strictly below
`-1` is rejected with the header-out-of-range error, and the file
`rows=-1 / cols=-1` parses to an empty 0×0 matrix. -/
theorem C7_minus_one_header (m : SparseMatrix) (val : Line) :
    (is_valid_int val = true → parse_int val = -1 →
      validate_and_set_dimension m val rowT = .ok ⟨0, m.cols, m.matrix_data⟩ ∧
      validate_and_set_dimension m val colT = .ok ⟨m.rows, 0, m.matrix_data⟩)
    ∧ (∀ d : Line, is_valid_int val = true → parse_int val < -1 →
        validate_and_set_dimension m val d = .error (.headerOutOfRange d))
    ∧ parse_file [("rows=-1").data, ("cols=-1").data] = .ok ⟨0, 0, []⟩ := by
  refine ⟨fun hv hp => ⟨?_, ?_⟩, fun d hv hp => ?_, by rfl⟩
  · unfold validate_and_set_dimension
    rw [hv, hp]
    norm_num
  · unfold validate_and_set_dimension
    rw [hv, hp]
    have hne : colT ≠ rowT := by decide
    norm_num [hne]
  · unfold validate_and_set_dimension
    rw [hv, if_pos hp]
    norm_num

/-- Witness for C7 at the literal header value `-1`. -/
theorem C7_minus_one_header_witness :
    validate_and_set_dimension exA (("-1").data) rowT = .ok ⟨0, exA.cols, exA.matrix_data⟩ ∧
    validate_and_set_dimension exA (("-1").data) colT = .ok ⟨exA.rows, 0, exA.matrix_data⟩ :=
  (C7_minus_one_header exA (("-1").data)).1 (by rfl) (by rfl)

/-! ## A toolkit for `trimChars` and `splitOnChar` -/

theorem dropWhile_append_of_head {p : Char → Bool} {l2 : Line}
    (h : ∀ c, l2.head? = some c → p c = false) :
    ∀ l1 : Line, List.dropWhile p (l1 ++ l2) = List.dropWhile p l1 ++ l2 := by
  intro l1
  induction l1 with
  | nil =>
    simp only [List.nil_append, List.dropWhile_nil]
    cases l2 with
    | nil => rfl
    | cons c t =>
      rw [List.dropWhile_cons, h c rfl]
      simp
  | cons c t ih =>
    rw [List.cons_append, List.dropWhile_cons, List.dropWhile_cons]
    by_cases hc : p c = true
    · rw [if_pos hc, if_pos hc, ih]
    · rw [if_neg hc, if_neg hc, List.cons_append]

theorem dropWhile_append_of_ne_nil {p : Char → Bool} {l1 : Line}
    (h : List.dropWhile p l1 ≠ []) (l2 : Line) :
    List.dropWhile p (l1 ++ l2) = List.dropWhile p l1 ++ l2 := by
  induction l1 with
  | nil => exact absurd rfl h
  | cons c t ih =>
    rw [List.cons_append, List.dropWhile_cons, List.dropWhile_cons]
    by_cases hc : p c = true
    · rw [if_pos hc, if_pos hc]
      rw [List.dropWhile_cons, if_pos hc] at h
      exact ih h
    · rw [if_neg hc, if_neg hc, List.cons_append]

theorem dropWhile_append_of_nil {p : Char → Bool} {l1 : Line}
    (h : List.dropWhile p l1 = []) (l2 : Line) :
    List.dropWhile p (l1 ++ l2) = List.dropWhile p l2 := by
  induction l1 with
  | nil => rfl
  | cons c t ih =>
    rw [List.dropWhile_cons] at h
    by_cases hc : p c = true
    · rw [if_pos hc] at h
      rw [List.cons_append, List.dropWhile_cons, if_pos hc]
      exact ih h
    · rw [if_neg hc] at h
      exact absurd h (by simp)

theorem dropWhile_idem (p : Char → Bool) (l : Line) :
    List.dropWhile p (List.dropWhile p l) = List.dropWhile p l := by
  induction l with
  | nil => rfl
  | cons c t ih =>
    by_cases hc : p c = true
    · rw [List.dropWhile_cons, if_pos hc]
      exact ih
    · rw [List.dropWhile_cons, if_neg hc, List.dropWhile_cons, if_neg hc]

theorem ltrim_eq_nil_iff {l : Line} : ltrim l = [] ↔ ∀ c ∈ l, isWs c = true := by
  unfold ltrim
  rw [List.dropWhile_eq_nil_iff]

theorem rtrim_eq_nil_iff {l : Line} : rtrim l = [] ↔ ∀ c ∈ l, isWs c = true := by
  unfold rtrim
  rw [List.reverse_eq_nil_iff, List.dropWhile_eq_nil_iff]
  constructor
  · intro h c hc
    exact h c (List.mem_reverse.mpr hc)
  · intro h c hc
    exact h c (List.mem_reverse.mp hc)

theorem ltrim_idem (l : Line) : ltrim (ltrim l) = ltrim l :=
  dropWhile_idem isWs l

theorem rtrim_idem (l : Line) : rtrim (rtrim l) = rtrim l := by
  unfold rtrim
  rw [List.reverse_reverse, dropWhile_idem]

theorem ltrim_append_sep {sep : Char} (hsep : isWs sep = false) (x y : Line) :
    ltrim (x ++ sep :: y) = ltrim x ++ sep :: y :=
  dropWhile_append_of_head
    (fun c hc => by
      rw [List.head?_cons] at hc
      cases hc
      exact hsep) x

theorem rtrim_append_sep {sep : Char} (hsep : isWs sep = false) (x y : Line) :
    rtrim (x ++ sep :: y) = x ++ sep :: rtrim y := by
  unfold rtrim
  rw [List.reverse_append, List.reverse_cons, List.append_assoc,
    @dropWhile_append_of_head isWs ([sep] ++ x.reverse)
      (fun c hc => by
        rw [List.singleton_append, List.head?_cons] at hc
        cases hc
        exact hsep) y.reverse]
  simp [List.reverse_append]

theorem rtrim_cons_of_not_all {c : Char} {t : Line}
    (h : ¬ ∀ x ∈ t, isWs x = true) : rtrim (c :: t) = c :: rtrim t := by
  unfold rtrim
  rw [List.reverse_cons,
    dropWhile_append_of_ne_nil (fun he => h (fun x hx =>
      List.dropWhile_eq_nil_iff.mp he x (List.mem_reverse.mpr hx))) [c]]
  simp

theorem rtrim_cons_of_all {c : Char} {t : Line} (h : ∀ x ∈ t, isWs x = true) :
    rtrim (c :: t) = if isWs c then [] else [c] := by
  unfold rtrim
  rw [List.reverse_cons,
    dropWhile_append_of_nil (List.dropWhile_eq_nil_iff.mpr
      (fun x hx => h x (List.mem_reverse.mp hx))) [c],
    List.dropWhile_cons]
  by_cases hc : isWs c = true
  · simp [hc]
  · simp [hc]

theorem ltrim_rtrim_comm (l : Line) : ltrim (rtrim l) = rtrim (ltrim l) := by
  induction l with
  | nil => rfl
  | cons c t ih =>
    by_cases hall : ∀ x ∈ t, isWs x = true
    · rw [rtrim_cons_of_all hall]
      by_cases hc : isWs c = true
      · rw [if_pos hc]
        have hlt : ltrim (c :: t) = ltrim t := by
          unfold ltrim
          rw [List.dropWhile_cons, if_pos hc]
        have htn : ltrim t = [] := ltrim_eq_nil_iff.mpr hall
        rw [hlt, htn]
        rfl
      · rw [if_neg hc]
        have hlt : ltrim (c :: t) = c :: t := by
          unfold ltrim
          rw [List.dropWhile_cons, if_neg hc]
        rw [hlt, rtrim_cons_of_all hall, if_neg hc]
        unfold ltrim
        rw [List.dropWhile_cons, if_neg hc]
    · rw [rtrim_cons_of_not_all hall]
      by_cases hc : isWs c = true
      · have hlt : ltrim (c :: t) = ltrim t := by
          unfold ltrim
          rw [List.dropWhile_cons, if_pos hc]
        have hlt2 : ltrim (c :: rtrim t) = ltrim (rtrim t) := by
          unfold ltrim
          rw [List.dropWhile_cons, if_pos hc]
        rw [hlt, hlt2, ih]
      · have hlt : ltrim (c :: t) = c :: t := by
          unfold ltrim
          rw [List.dropWhile_cons, if_neg hc]
        have hlt2 : ltrim (c :: rtrim t) = c :: rtrim t := by
          unfold ltrim
          rw [List.dropWhile_cons, if_neg hc]
        rw [hlt, hlt2, rtrim_cons_of_not_all hall]

theorem trim_ltrim (l : Line) : trimChars (ltrim l) = trimChars l := by
  unfold trimChars
  rw [ltrim_rtrim_comm l, ← ltrim_rtrim_comm l]
  exact ltrim_idem (rtrim l)

theorem trim_rtrim (l : Line) : trimChars (rtrim l) = trimChars l := by
  unfold trimChars
  rw [rtrim_idem]

theorem mem_of_mem_ltrim {c : Char} {l : Line} (h : c ∈ ltrim l) : c ∈ l :=
  (List.dropWhile_sublist _).subset h

theorem mem_of_mem_rtrim {c : Char} {l : Line} (h : c ∈ rtrim l) : c ∈ l := by
  unfold rtrim at h
  rw [List.mem_reverse] at h
  exact List.mem_reverse.mp ((List.dropWhile_sublist _).subset h)

theorem splitOnChar_sep_cons {sep : Char} :
    ∀ {x : Line}, sep ∉ x → ∀ y : Line,
      splitOnChar sep (x ++ sep :: y) = x :: splitOnChar sep y := by
  intro x
  induction x with
  | nil =>
    intro _ y
    rw [List.nil_append, splitOnChar, if_pos rfl]
  | cons c t ih =>
    intro hmem y
    have hc : c ≠ sep := fun he => hmem (he ▸ List.mem_cons_self _ _)
    have ht : sep ∉ t := fun he => hmem (List.mem_cons_of_mem _ he)
    rw [List.cons_append, splitOnChar, ih ht y]
    simp [hc]

theorem splitOnChar_no_sep {sep : Char} :
    ∀ {x : Line}, sep ∉ x → splitOnChar sep x = [x] := by
  intro x
  induction x with
  | nil => intro _; rfl
  | cons c t ih =>
    intro hmem
    have hc : c ≠ sep := fun he => hmem (he ▸ List.mem_cons_self _ _)
    have ht : sep ∉ t := fun he => hmem (List.mem_cons_of_mem _ he)
    rw [splitOnChar, ih ht]
    simp [hc]

theorem trim_append_left {a b : Line} (ha : a ≠ [])
    (hh : ∀ c, a.head? = some c → isWs c = false)
    (hl : ∀ c, a.getLast? = some c → isWs c = false) :
    trimChars (a ++ b) = a ++ rtrim b := by
  unfold trimChars
  have h1 : rtrim (a ++ b) = a ++ rtrim b := by
    unfold rtrim
    rw [List.reverse_append, @dropWhile_append_of_head isWs a.reverse
      (fun c hc => hl c (by rwa [List.head?_reverse] at hc)) b.reverse,
      List.reverse_append, List.reverse_reverse]
  rw [h1]
  cases a with
  | nil => exact absurd rfl ha
  | cons c t =>
    have hc := hh c rfl
    unfold ltrim
    rw [List.cons_append, List.dropWhile_cons, if_neg (by simp [hc])]

theorem trim_eq_nil_of_all_ws {l : Line} (h : ∀ c ∈ l, isWs c = true) :
    trimChars l = [] := by
  unfold trimChars
  rw [rtrim_eq_nil_iff.mpr h]
  rfl

theorem parts_of_inner {A B C : Line} (hA : ',' ∉ A) (hB : ',' ∉ B) (hC : ',' ∉ C) :
    (splitOnChar ',' (trimChars (A ++ ',' :: (B ++ ',' :: C)))).map trimChars
      = [trimChars A, trimChars B, trimChars C] := by
  have hsep : isWs ',' = false := rfl
  have h1 : trimChars (A ++ ',' :: (B ++ ',' :: C))
      = ltrim A ++ ',' :: (B ++ ',' :: rtrim C) := by
    unfold trimChars
    rw [rtrim_append_sep hsep, rtrim_append_sep hsep, ltrim_append_sep hsep]
  rw [h1,
    splitOnChar_sep_cons (fun hm => hA (mem_of_mem_ltrim hm)) _,
    splitOnChar_sep_cons hB _,
    splitOnChar_no_sep (fun hm => hC (mem_of_mem_rtrim hm)),
    List.map_cons, List.map_cons, List.map_cons, List.map_nil,
    trim_ltrim, trim_rtrim]

/-! ## Branch lemmas for the parser -/

theorem validate_error_wrong_format {m : SparseMatrix} {val d : Line} {e : MatrixError}
    (h : validate_and_set_dimension m val d = .error e) :
    wrongFormatTag <:+: e.message := by
  unfold validate_and_set_dimension at h
  split at h
  · cases h
    rw [MatrixError.message]
    have hpre : wrongFormatTag <+: ("Input file has wrong format: \x27").data := by decide
    exact ((hpre.trans (List.prefix_append _ _)).trans (List.prefix_append _ _)).isInfix
  · split at h
    · cases h
      rw [MatrixError.message]
      have hpre : wrongFormatTag <+: ("Input file has wrong format: \x27").data := by decide
      exact ((hpre.trans (List.prefix_append _ _)).trans (List.prefix_append _ _)).isInfix
    · split at h <;> exact absurd h (by simp)

theorem stepTrimmed_rows (v : Line) (n : Nat) (pr pc : Bool) (m : SparseMatrix) :
    stepTrimmed (rowsTag ++ v) n pr pc m = rowsHeaderStep (rowsTag ++ v) n pr pc m := by
  unfold stepTrimmed
  rw [if_neg (by simp [show (rowsTag ++ v).isEmpty = false from rfl]),
    if_pos (show rowsTag.isPrefixOf (rowsTag ++ v) = true from by
      rw [List.isPrefixOf_iff_prefix]
      exact List.prefix_append _ _)]

theorem stepTrimmed_cols (v : Line) (n : Nat) (pr pc : Bool) (m : SparseMatrix) :
    stepTrimmed (colsTag ++ v) n pr pc m = colsHeaderStep (colsTag ++ v) n pr pc m := by
  unfold stepTrimmed
  rw [if_neg (by simp [show (colsTag ++ v).isEmpty = false from rfl]),
    if_neg (by simp [show rowsTag.isPrefixOf (colsTag ++ v) = false from rfl]),
    if_pos (show colsTag.isPrefixOf (colsTag ++ v) = true from by
      rw [List.isPrefixOf_iff_prefix]
      exact List.prefix_append _ _)]

theorem getLast?_paren (inner : Line) :
    ('(' :: (inner ++ [')'])).getLast? = some ')' := by
  show (('(' :: inner) ++ [')']).getLast? = some ')'
  exact List.getLast?_concat _

theorem stepTrimmed_data (inner : Line) (n : Nat) (pr pc : Bool) (m : SparseMatrix) :
    stepTrimmed ('(' :: (inner ++ [')'])) n pr pc m
      = dataLineStep ('(' :: (inner ++ [')'])) n pr pc m := by
  unfold stepTrimmed
  rw [if_neg (by simp [show (('(' : Char) :: (inner ++ [')'])).isEmpty = false from rfl]),
    if_neg (by simp [show rowsTag.isPrefixOf ('(' :: (inner ++ [')'])) = false from rfl]),
    if_neg (by simp [show colsTag.isPrefixOf ('(' :: (inner ++ [')'])) = false from rfl]),
    if_pos ⟨rfl, getLast?_paren inner⟩]

theorem trim_rowsTag_append (v : Line) :
    trimChars (rowsTag ++ v) = rowsTag ++ rtrim v :=
  trim_append_left (by decide)
    (fun c hc => by
      rw [show rowsTag.head? = some 'r' from rfl] at hc
      cases hc
      rfl)
    (fun c hc => by
      rw [show rowsTag.getLast? = some '=' from rfl] at hc
      cases hc
      rfl)

theorem trim_colsTag_append (v : Line) :
    trimChars (colsTag ++ v) = colsTag ++ rtrim v :=
  trim_append_left (by decide)
    (fun c hc => by
      rw [show colsTag.head? = some 'c' from rfl] at hc
      cases hc
      rfl)
    (fun c hc => by
      rw [show colsTag.getLast? = some '=' from rfl] at hc
      cases hc
      rfl)

theorem splitOnChar_rowsTag (w : Line) :
    splitOnChar '=' (rowsTag ++ w) = ("rows").data :: splitOnChar '=' w := by
  rw [show rowsTag ++ w = ("rows").data ++ '=' :: w from rfl]
  exact splitOnChar_sep_cons (by decide) _

theorem splitOnChar_colsTag (w : Line) :
    splitOnChar '=' (colsTag ++ w) = ("cols").data :: splitOnChar '=' w := by
  rw [show colsTag ++ w = ("cols").data ++ '=' :: w from rfl]
  exact splitOnChar_sep_cons (by decide) _

/-- Behaviour of a `rows=` line whose value contains no further `=`:
the trimmed value is handed to `_validate_and_set_dimension`, whose
error (always carrying the wrong-format text) is re-raised unchanged. -/
theorem parseStep_rows_no_second_eq {v : Line} (hv : '=' ∉ v) (n : Nat)
    (pr pc : Bool) (m : SparseMatrix) :
    parseStep (rowsTag ++ v) n pr pc m =
      (if pr then .fail .duplicateRowsHeader
       else match validate_and_set_dimension m (trimChars v) rowT with
            | .ok m2 => .cont true pc m2
            | .error e => .fail e) := by
  unfold parseStep
  rw [trim_rowsTag_append, stepTrimmed_rows]
  unfold rowsHeaderStep
  rw [splitOnChar_rowsTag, splitOnChar_no_sep (fun hm => hv (mem_of_mem_rtrim hm))]
  by_cases hpr : pr = true
  · rw [if_pos hpr, if_pos hpr]
  · rw [if_neg hpr, if_neg hpr]
    simp only [List.drop_succ_cons, List.drop_zero, trim_rtrim]
    cases hv2 : validate_and_set_dimension m (trimChars v) rowT with
    | ok m2 => rfl
    | error e => simp [validate_error_wrong_format hv2]

/-- Behaviour of a `rows=` line with a second `=`: only the segment
between the first and second `=` is validated. -/
theorem parseStep_rows_second_eq {x : Line} (hx : '=' ∉ x) (y : Line) (n : Nat)
    (pr pc : Bool) (m : SparseMatrix) :
    parseStep (rowsTag ++ (x ++ '=' :: y)) n pr pc m =
      (if pr then .fail .duplicateRowsHeader
       else match validate_and_set_dimension m (trimChars x) rowT with
            | .ok m2 => .cont true pc m2
            | .error e => .fail e) := by
  unfold parseStep
  rw [trim_rowsTag_append, stepTrimmed_rows]
  unfold rowsHeaderStep
  rw [rtrim_append_sep (by decide : isWs '=' = false), splitOnChar_rowsTag,
    splitOnChar_sep_cons hx]
  by_cases hpr : pr = true
  · rw [if_pos hpr, if_pos hpr]
  · rw [if_neg hpr, if_neg hpr]
    simp only [List.drop_succ_cons, List.drop_zero]
    cases hv2 : validate_and_set_dimension m (trimChars x) rowT with
    | ok m2 => rfl
    | error e => simp [validate_error_wrong_format hv2]

theorem parseStep_cols_no_second_eq {v : Line} (hv : '=' ∉ v) (n : Nat)
    (pr pc : Bool) (m : SparseMatrix) :
    parseStep (colsTag ++ v) n pr pc m =
      (if pc then .fail .duplicateColsHeader
       else match validate_and_set_dimension m (trimChars v) colT with
            | .ok m2 => .cont pr true m2
            | .error e => .fail e) := by
  unfold parseStep
  rw [trim_colsTag_append, stepTrimmed_cols]
  unfold colsHeaderStep
  rw [splitOnChar_colsTag, splitOnChar_no_sep (fun hm => hv (mem_of_mem_rtrim hm))]
  by_cases hpc : pc = true
  · rw [if_pos hpc, if_pos hpc]
  · rw [if_neg hpc, if_neg hpc]
    simp only [List.drop_succ_cons, List.drop_zero, trim_rtrim]
    cases hv2 : validate_and_set_dimension m (trimChars v) colT with
    | ok m2 => rfl
    | error e => simp [validate_error_wrong_format hv2]

/-- Behaviour of a `cols=` line with a second `=`: only the segment
between the first and second `=` is validated. -/
theorem parseStep_cols_second_eq {x : Line} (hx : '=' ∉ x) (y : Line) (n : Nat)
    (pr pc : Bool) (m : SparseMatrix) :
    parseStep (colsTag ++ (x ++ '=' :: y)) n pr pc m =
      (if pc then .fail .duplicateColsHeader
       else match validate_and_set_dimension m (trimChars x) colT with
            | .ok m2 => .cont pr true m2
            | .error e => .fail e) := by
  unfold parseStep
  rw [trim_colsTag_append, stepTrimmed_cols]
  unfold colsHeaderStep
  rw [rtrim_append_sep (by decide : isWs '=' = false), splitOnChar_colsTag,
    splitOnChar_sep_cons hx]
  by_cases hpc : pc = true
  · rw [if_pos hpc, if_pos hpc]
  · rw [if_neg hpc, if_neg hpc]
    simp only [List.drop_succ_cons, List.drop_zero]
    cases hv2 : validate_and_set_dimension m (trimChars x) colT with
    | ok m2 => rfl
    | error e => simp [validate_error_wrong_format hv2]

theorem parseStep_blank {raw : Line} {n : Nat} {pr pc : Bool} {m : SparseMatrix}
    (h : trimChars raw = []) : parseStep raw n pr pc m = .cont pr pc m := by
  unfold parseStep stepTrimmed
  rw [h]
  rfl

theorem rowsHeaderStep_cont_lineNo {line : Line} {n n2 : Nat} {pr pc : Bool}
    {m : SparseMatrix} {pr2 pc2 : Bool} {m2 : SparseMatrix}
    (h : rowsHeaderStep line n pr pc m = .cont pr2 pc2 m2) :
    rowsHeaderStep line n2 pr pc m = .cont pr2 pc2 m2 := by
  unfold rowsHeaderStep at h ⊢
  split at h
  · exact absurd h (by simp)
  · next hpr =>
    rw [if_neg hpr]
    split at h
    · next val rest heq =>
      split at h
      · next mv hveq =>
        exact h
      · next e2 hveq =>
        split at h <;> exact absurd h (by simp)
    · exact absurd h (by simp)

theorem colsHeaderStep_cont_lineNo {line : Line} {n n2 : Nat} {pr pc : Bool}
    {m : SparseMatrix} {pr2 pc2 : Bool} {m2 : SparseMatrix}
    (h : colsHeaderStep line n pr pc m = .cont pr2 pc2 m2) :
    colsHeaderStep line n2 pr pc m = .cont pr2 pc2 m2 := by
  unfold colsHeaderStep at h ⊢
  split at h
  · exact absurd h (by simp)
  · next hpc =>
    rw [if_neg hpc]
    split at h
    · next val rest heq =>
      split at h
      · next mv hveq =>
        exact h
      · next e2 hveq =>
        split at h <;> exact absurd h (by simp)
    · exact absurd h (by simp)

theorem dataLineStep_cont_lineNo {line : Line} {n n2 : Nat} {pr pc : Bool}
    {m : SparseMatrix} {pr2 pc2 : Bool} {m2 : SparseMatrix}
    (h : dataLineStep line n pr pc m = .cont pr2 pc2 m2) :
    dataLineStep line n2 pr pc m = .cont pr2 pc2 m2 := by
  unfold dataLineStep at h ⊢
  split at h
  · exact absurd h (by simp)
  · next hand =>
    rw [if_neg hand]
    split at h
    · exact absurd h (by simp)
    · next hlen =>
      rw [if_neg hlen]
      split at h
      · next rs cs vs heq =>
        split at h
        · next hbd =>
          rw [if_pos hbd]
          split at h
          · next mv hset =>
            exact h
          · exact absurd h (by simp)
        · exact absurd h (by simp)
      · exact absurd h (by simp)

theorem stepTrimmed_cont_lineNo {line : Line} {n n2 : Nat} {pr pc : Bool}
    {m : SparseMatrix} {pr2 pc2 : Bool} {m2 : SparseMatrix}
    (h : stepTrimmed line n pr pc m = .cont pr2 pc2 m2) :
    stepTrimmed line n2 pr pc m = .cont pr2 pc2 m2 := by
  unfold stepTrimmed at h ⊢
  by_cases h1 : line.isEmpty = true
  · rw [if_pos h1] at h ⊢
    exact h
  · rw [if_neg h1] at h ⊢
    by_cases h2 : rowsTag.isPrefixOf line = true
    · rw [if_pos h2] at h ⊢
      exact rowsHeaderStep_cont_lineNo h
    · rw [if_neg h2] at h ⊢
      by_cases h3 : colsTag.isPrefixOf line = true
      · rw [if_pos h3] at h ⊢
        exact colsHeaderStep_cont_lineNo h
      · rw [if_neg h3] at h ⊢
        by_cases h4 : line.head? = some '(' ∧ line.getLast? = some ')'
        · rw [if_pos h4] at h ⊢
          exact dataLineStep_cont_lineNo h
        · rw [if_neg h4] at h
          exact absurd h (by simp)

theorem parseLinesAux_ok_lineNo : ∀ (lines : List Line) (n n2 : Nat) (pr pc : Bool)
    (m M : SparseMatrix), parseLinesAux lines n pr pc m = .ok M →
    parseLinesAux lines n2 pr pc m = .ok M := by
  intro lines
  induction lines with
  | nil =>
    intro n n2 pr pc m M h
    rw [parseLinesAux] at h ⊢
    exact h
  | cons raw rest ih =>
    intro n n2 pr pc m M h
    rw [parseLinesAux] at h ⊢
    cases hstep : parseStep raw (n + 1) pr pc m with
    | cont pr2 pc2 m2 =>
      rw [hstep] at h
      rw [show parseStep raw (n2 + 1) pr pc m = .cont pr2 pc2 m2 from
        stepTrimmed_cont_lineNo hstep]
      exact ih (n + 1) (n2 + 1) pr2 pc2 m2 M h
    | fail e =>
      rw [hstep] at h
      exact absurd h (by simp)

theorem trim_dataLine (fa fb fc : Line) :
    trimChars (dataLine fa fb fc) = dataLine fa fb fc := by
  unfold dataLine
  exact trim_eq_self
    (fun c hc => by rw [List.head?_cons] at hc; cases hc; rfl)
    (fun c hc => by rw [getLast?_paren] at hc; cases hc; rfl)

theorem entry_parts_dataLine {fa fb fc : Line} (ha : ',' ∉ fa) (hb : ',' ∉ fb)
    (hc : ',' ∉ fc) :
    entry_parts (dataLine fa fb fc) = [trimChars fa, trimChars fb, trimChars fc] := by
  unfold entry_parts dataLine
  rw [List.drop_one, List.tail_cons, List.dropLast_concat]
  exact parts_of_inner ha hb hc

theorem parseStep_dataLine (fa fb fc : Line) (n : Nat) (pr pc : Bool) (m : SparseMatrix) :
    parseStep (dataLine fa fb fc) n pr pc m = dataLineStep (dataLine fa fb fc) n pr pc m := by
  unfold parseStep
  rw [trim_dataLine]
  exact stepTrimmed_data _ n pr pc m

theorem dataLineStep_ext {l1 l2 : Line} (h : entry_parts l1 = entry_parts l2)
    (n : Nat) (pr pc : Bool) (m : SparseMatrix) :
    dataLineStep l1 n pr pc m = dataLineStep l2 n pr pc m := by
  unfold dataLineStep
  rw [h]

/-! ## Claim C6: which substring of a header line is validated -/

/-- Counterexample to C6: in `rows=1=2` the substring after the first
`=` is `1=2`, which is not a valid integer, so per the claim the parse
should fail with a malformed-header error — but the code validates
only `split('=')[1]`, accepts `1`, and the file parses successfully
to a 2×1 matrix. -/
theorem C6_header_substring_counterexample :
    parse_file [("rows=1=2").data, ("cols=0").data] = .ok ⟨2, 1, []⟩ ∧
    is_valid_int (("1=2").data) = false := ⟨rfl, rfl⟩

/-- C6 amended: for both `rows=` and `cols=` header lines, the parser
validates the substring between the first and the second `=` of the
line (Python `split('=')[1]`), not everything after the first `=`;
with no second `=` the two coincide.  The validated, trimmed segment
must pass `_is_valid_int`, else the malformed-header error is raised. -/
theorem C6_header_substring_amended (x y v : Line) (n : Nat) (pr pc : Bool)
    (m : SparseMatrix) :
    ('=' ∉ v →
      parseStep (rowsTag ++ v) n pr pc m =
        (if pr then .fail .duplicateRowsHeader
         else match validate_and_set_dimension m (trimChars v) rowT with
              | .ok m2 => .cont true pc m2
              | .error e => .fail e))
    ∧ ('=' ∉ x →
      parseStep (rowsTag ++ (x ++ '=' :: y)) n pr pc m =
        (if pr then .fail .duplicateRowsHeader
         else match validate_and_set_dimension m (trimChars x) rowT with
              | .ok m2 => .cont true pc m2
              | .error e => .fail e))
    ∧ ('=' ∉ x → is_valid_int (trimChars x) = false →
      parseStep (rowsTag ++ (x ++ '=' :: y)) n false pc m =
        .fail (.malformedHeader rowT))
    ∧ ('=' ∉ v →
      parseStep (colsTag ++ v) n pr pc m =
        (if pc then .fail .duplicateColsHeader
         else match validate_and_set_dimension m (trimChars v) colT with
              | .ok m2 => .cont pr true m2
              | .error e => .fail e))
    ∧ ('=' ∉ x →
      parseStep (colsTag ++ (x ++ '=' :: y)) n pr pc m =
        (if pc then .fail .duplicateColsHeader
         else match validate_and_set_dimension m (trimChars x) colT with
              | .ok m2 => .cont pr true m2
              | .error e => .fail e))
    ∧ ('=' ∉ x → is_valid_int (trimChars x) = false →
      parseStep (colsTag ++ (x ++ '=' :: y)) n pr false m =
        .fail (.malformedHeader colT)) := by
  refine ⟨fun hv => parseStep_rows_no_second_eq hv n pr pc m,
    fun hx => parseStep_rows_second_eq hx y n pr pc m,
    fun hx hbad => ?_,
    fun hv => parseStep_cols_no_second_eq hv n pr pc m,
    fun hx => parseStep_cols_second_eq hx y n pr pc m,
    fun hx hbad => ?_⟩
  · rw [parseStep_rows_second_eq hx y n false pc m, if_neg (by simp)]
    unfold validate_and_set_dimension
    rw [hbad]
    rfl
  · rw [parseStep_cols_second_eq hx y n pr false m, if_neg (by simp)]
    unfold validate_and_set_dimension
    rw [hbad]
    rfl

/-- Witness for the amended C6 on the counterexample value `1=2`: in
both a `rows=1=2` and a `cols=1=2` line, the segment `1` is validated
and sets the dimension to 2. -/
theorem C6_header_substring_amended_witness :
    parseStep (rowsTag ++ (("1").data ++ '=' :: ("2").data)) 1 false false ⟨0, 0, []⟩ =
      .cont true false ⟨2, 0, []⟩ ∧
    parseStep (colsTag ++ (("1").data ++ '=' :: ("2").data)) 2 true false ⟨2, 0, []⟩ =
      .cont true true ⟨2, 2, []⟩ := by
  constructor
  · have h := (C6_header_substring_amended (("1").data) (("2").data) [] 1 false false
      ⟨0, 0, []⟩).2.1 (by decide)
    rw [h]
    rfl
  · have h := (C6_header_substring_amended (("1").data) (("2").data) [] 2 true false
      ⟨2, 0, []⟩).2.2.2.2.1 (by decide)
    rw [h]
    rfl

/-! ## Claim C9: blank lines and whitespace tolerance -/

/-- Counterexample to C9: a file accepted by the parser stops being
accepted when a space is inserted before the `=` of its header line:
`rows =0` is an unrecognized line. -/
theorem C9_whitespace_counterexample :
    parse_file [("rows=0").data, ("cols=0").data] = .ok ⟨1, 1, []⟩ ∧
    parse_file [("rows =0").data, ("cols=0").data] = .error (.unrecognizedLine 1) :=
  ⟨rfl, rfl⟩

/-- C9 amended: blank (all-whitespace) lines are ignored anywhere —
inserting or removing one does not change a successful parse, up to
the line numbering used in diagnostics; a `rows=` or `cols=` header is
read up to trimming of its value (so whitespace after the `=` and at
the ends of the line is ignored); and a data line is read up to
trimming of its three comma-separated fields — but whitespace before
the `=` of a header is not tolerated (see the counterexample). -/
theorem C9_whitespace_amended :
    (∀ ws : Line, (∀ c ∈ ws, isWs c = true) →
      ∀ (pre post : List Line) (n : Nat) (pr pc : Bool) (m M : SparseMatrix),
        parseLinesAux (pre ++ post) n pr pc m = .ok M →
        parseLinesAux (pre ++ ws :: post) n pr pc m = .ok M)
    ∧ (∀ (v v2 : Line) (rest : List Line) (n : Nat) (pr pc : Bool) (m : SparseMatrix),
        '=' ∉ v → '=' ∉ v2 → trimChars v = trimChars v2 →
        parseLinesAux ((rowsTag ++ v) :: rest) n pr pc m
          = parseLinesAux ((rowsTag ++ v2) :: rest) n pr pc m)
    ∧ (∀ (fa fb fc ga gb gc : Line) (rest : List Line) (n : Nat) (pr pc : Bool)
        (m : SparseMatrix),
        ',' ∉ fa → ',' ∉ fb → ',' ∉ fc → ',' ∉ ga → ',' ∉ gb → ',' ∉ gc →
        trimChars fa = trimChars ga → trimChars fb = trimChars gb →
        trimChars fc = trimChars gc →
        parseLinesAux (dataLine fa fb fc :: rest) n pr pc m
          = parseLinesAux (dataLine ga gb gc :: rest) n pr pc m)
    ∧ (∀ ws : Line, (∀ c ∈ ws, isWs c = true) →
      ∀ (pre post : List Line) (n : Nat) (pr pc : Bool) (m M : SparseMatrix),
        parseLinesAux (pre ++ ws :: post) n pr pc m = .ok M →
        parseLinesAux (pre ++ post) n pr pc m = .ok M)
    ∧ (∀ (v v2 : Line) (rest : List Line) (n : Nat) (pr pc : Bool) (m : SparseMatrix),
        '=' ∉ v → '=' ∉ v2 → trimChars v = trimChars v2 →
        parseLinesAux ((colsTag ++ v) :: rest) n pr pc m
          = parseLinesAux ((colsTag ++ v2) :: rest) n pr pc m) := by
  refine ⟨?_, ?_, ?_, ?_, ?_⟩
  · intro ws hws pre
    induction pre with
    | nil =>
      intro post n pr pc m M h
      rw [List.nil_append] at h
      rw [List.nil_append, parseLinesAux,
        parseStep_blank (trim_eq_nil_of_all_ws hws)]
      exact parseLinesAux_ok_lineNo post n (n + 1) pr pc m M h
    | cons raw rest ih =>
      intro post n pr pc m M h
      rw [List.cons_append, parseLinesAux] at h
      rw [List.cons_append, parseLinesAux]
      cases hstep : parseStep raw (n + 1) pr pc m with
      | cont pr2 pc2 m2 =>
        rw [hstep] at h
        exact ih post (n + 1) pr2 pc2 m2 M h
      | fail e =>
        rw [hstep] at h
        exact absurd h (by simp)
  · intro v v2 rest n pr pc m hv hv2 htrim
    rw [parseLinesAux, parseLinesAux, parseStep_rows_no_second_eq hv,
      parseStep_rows_no_second_eq hv2, htrim]
  · intro fa fb fc ga gb gc rest n pr pc m h1 h2 h3 h4 h5 h6 e1 e2 e3
    rw [parseLinesAux, parseLinesAux, parseStep_dataLine, parseStep_dataLine,
      @dataLineStep_ext (dataLine fa fb fc) (dataLine ga gb gc)
        (by rw [entry_parts_dataLine h1 h2 h3, entry_parts_dataLine h4 h5 h6, e1, e2, e3])]
  · intro ws hws pre
    induction pre with
    | nil =>
      intro post n pr pc m M h
      rw [List.nil_append, parseLinesAux,
        parseStep_blank (trim_eq_nil_of_all_ws hws)] at h
      rw [List.nil_append]
      exact parseLinesAux_ok_lineNo post (n + 1) n pr pc m M h
    | cons raw rest ih =>
      intro post n pr pc m M h
      rw [List.cons_append, parseLinesAux] at h
      rw [List.cons_append, parseLinesAux]
      cases hstep : parseStep raw (n + 1) pr pc m with
      | cont pr2 pc2 m2 =>
        rw [hstep] at h
        exact ih post (n + 1) pr2 pc2 m2 M h
      | fail e =>
        rw [hstep] at h
        exact absurd h (by simp)
  · intro v v2 rest n pr pc m hv hv2 htrim
    rw [parseLinesAux, parseLinesAux, parseStep_cols_no_second_eq hv,
      parseStep_cols_no_second_eq hv2, htrim]

/-- Witness for the amended C9: inserting and removing a blank line
and padding a `rows=` or `cols=` header value with spaces preserve the
parse of a concrete file. -/
theorem C9_whitespace_amended_witness :
    parseLinesAux [("rows=0").data, (" ").data, ("cols=0").data] 0 false false ⟨0, 0, []⟩ =
      .ok ⟨1, 1, []⟩ ∧
    parseLinesAux [(rowsTag ++ (" 0 ").data)] 0 false false ⟨0, 0, []⟩ =
      parseLinesAux [(rowsTag ++ ("0").data)] 0 false false ⟨0, 0, []⟩ ∧
    parseLinesAux [("rows=0").data, ("cols=0").data] 0 false false ⟨0, 0, []⟩ =
      .ok ⟨1, 1, []⟩ ∧
    parseLinesAux [(colsTag ++ (" 0 ").data)] 0 false false ⟨0, 0, []⟩ =
      parseLinesAux [(colsTag ++ ("0").data)] 0 false false ⟨0, 0, []⟩ := by
  refine ⟨?_, ?_, ?_, ?_⟩
  · exact (C9_whitespace_amended).1 ((" ").data) (by decide)
      [("rows=0").data] [("cols=0").data] 0 false false ⟨0, 0, []⟩ ⟨1, 1, []⟩ (by rfl)
  · exact (C9_whitespace_amended).2.1 ((" 0 ").data) (("0").data) [] 0 false false
      ⟨0, 0, []⟩ (by decide) (by decide) (by decide)
  · exact (C9_whitespace_amended).2.2.2.1 ((" ").data) (by decide)
      [("rows=0").data] [("cols=0").data] 0 false false ⟨0, 0, []⟩ ⟨1, 1, []⟩ (by rfl)
  · exact (C9_whitespace_amended).2.2.2.2 ((" 0 ").data) (("0").data) [] 0 false false
      ⟨0, 0, []⟩ (by decide) (by decide) (by decide)

/-! ## Rendered entry lines -/

theorem entryLine_eq_dataLine (r c v : Int) :
    entryLine r c v = dataLine (intRepr r) (' ' :: intRepr c) (' ' :: intRepr v) := by
  unfold entryLine dataLine
  simp [List.append_assoc]

theorem ltrim_cons_space (l : Line) : ltrim (' ' :: l) = ltrim l := by
  unfold ltrim
  rw [List.dropWhile_cons, if_pos (by rfl)]

theorem trim_cons_space (l : Line) : trimChars (' ' :: l) = trimChars l := by
  calc trimChars (' ' :: l) = trimChars (ltrim (' ' :: l)) := (trim_ltrim _).symm
    _ = trimChars (ltrim l) := by rw [ltrim_cons_space]
    _ = trimChars l := trim_ltrim _

theorem comma_not_mem_space_intRepr (i : Int) : ',' ∉ ' ' :: intRepr i := by
  intro hm
  rcases List.mem_cons.mp hm with he | hm2
  · exact absurd he (by decide)
  · exact intRepr_no_char (by decide) (by decide) hm2

theorem entry_parts_entryLine (r c v : Int) :
    entry_parts (entryLine r c v) = [intRepr r, intRepr c, intRepr v] := by
  rw [entryLine_eq_dataLine,
    entry_parts_dataLine (intRepr_no_char (by decide) (by decide))
      (comma_not_mem_space_intRepr c) (comma_not_mem_space_intRepr v),
    trim_intRepr, trim_cons_space, trim_cons_space, trim_intRepr, trim_intRepr]

theorem parseStep_entryLine {r c v : Int} {n : Nat} {m : SparseMatrix}
    (hb : 0 ≤ r ∧ r < (m.rows : Int) ∧ 0 ≤ c ∧ c < (m.cols : Int)) :
    parseStep (entryLine r c v) n true true m = .cont true true (setOk m r c v) := by
  rw [entryLine_eq_dataLine, parseStep_dataLine]
  unfold dataLineStep
  rw [show entry_parts (dataLine (intRepr r) (' ' :: intRepr c) (' ' :: intRepr v))
      = [intRepr r, intRepr c, intRepr v] from by
    rw [← entryLine_eq_dataLine]
    exact entry_parts_entryLine r c v]
  rw [if_neg (by simp)]
  rw [if_neg (by
    push_neg
    refine ⟨rfl, ?_⟩
    simp [List.all_cons, is_valid_int_intRepr])]
  simp only [parse_int_intRepr]
  rw [if_pos hb, set_element_eq_ok v hb]

theorem eraseKey_idem (l : List ((Int × Int) × Int)) (k : Int × Int) :
    eraseKey (eraseKey l k) k = eraseKey l k := by
  induction l with
  | nil => rfl
  | cons e t ih =>
    obtain ⟨k0, v0⟩ := e
    by_cases h : k0 = k
    · rw [eraseKey, if_pos h]
      exact ih
    · rw [eraseKey, if_neg h, eraseKey, if_neg h, ih]

theorem setOk_setOk (m : SparseMatrix) (r c v1 v2 : Int) :
    setOk (setOk m r c v1) r c v2 = setOk m r c v2 := by
  unfold setOk setData
  by_cases h1 : v1 = 0 <;> by_cases h2 : v2 = 0 <;>
    simp only [h1, h2, if_pos, if_neg, if_true, if_false] <;>
    simp [h1, h2, eraseKey_idem, eraseKey]

/-- C10: when two data lines address the same (row, col), the earlier
one has no effect on the parse: parsing the pair equals parsing just
the later line (the later value overwrites), two successive
`set_element` calls on the same key collapse to the last one, and a
last value of 0 leaves no stored entry at the key. -/
theorem C10_later_entry_overwrites :
    (∀ (r c v1 v2 : Int) (n : Nat) (rest : List Line) (m : SparseMatrix),
      0 ≤ r → r < (m.rows : Int) → 0 ≤ c → c < (m.cols : Int) →
      parseLinesAux (entryLine r c v1 :: entryLine r c v2 :: rest) n true true m
        = parseLinesAux (entryLine r c v2 :: rest) (n + 1) true true m)
    ∧ (∀ (m : SparseMatrix) (r c v1 v2 : Int),
        setOk (setOk m r c v1) r c v2 = setOk m r c v2)
    ∧ (∀ (m : SparseMatrix) (r c : Int),
        lookupKey (setOk m r c 0).matrix_data (r, c) = none) := by
  refine ⟨?_, setOk_setOk, ?_⟩
  · intro r c v1 v2 n rest m h1 h2 h3 h4
    rw [parseLinesAux, parseStep_entryLine ⟨h1, h2, h3, h4⟩]
    simp only []
    rw [parseLinesAux, parseLinesAux,
      parseStep_entryLine
        (show 0 ≤ r ∧ r < ((setOk m r c v1).rows : Int) ∧ 0 ≤ c ∧
          c < ((setOk m r c v1).cols : Int) from ⟨h1, h2, h3, h4⟩),
      parseStep_entryLine ⟨h1, h2, h3, h4⟩, setOk_setOk]
  · intro m r c
    show lookupKey (setData m.matrix_data r c 0) (r, c) = none
    unfold setData
    rw [if_pos rfl]
    exact lookupKey_eraseKey_self _ _

/-- Witness for C10 on a concrete 1×1 matrix and the values 1 then 2. -/
theorem C10_later_entry_overwrites_witness :
    parseLinesAux [entryLine 0 0 1, entryLine 0 0 2] 2 true true ⟨1, 1, []⟩
      = parseLinesAux [entryLine 0 0 2] 3 true true ⟨1, 1, []⟩ :=
  C10_later_entry_overwrites.1 0 0 1 2 2 [] ⟨1, 1, []⟩
    (by decide) (by decide) (by decide) (by decide)

/-! ## Sorting, permutations and lookups (for the save/load round trip) -/

theorem insertSorted_perm (e : (Int × Int) × Int) :
    ∀ l : List ((Int × Int) × Int), (insertSorted e l).Perm (e :: l) := by
  intro l
  induction l with
  | nil => exact List.Perm.refl _
  | cons x rest ih =>
    rw [insertSorted]
    by_cases h : entryLE e x = true
    · rw [if_pos h]
    · rw [if_neg h]
      exact (ih.cons x).trans (List.Perm.swap e x rest)

theorem sortEntries_perm (l : List ((Int × Int) × Int)) : (sortEntries l).Perm l := by
  induction l with
  | nil => exact List.Perm.refl _
  | cons e t ih =>
    rw [show sortEntries (e :: t) = insertSorted e (sortEntries t) from rfl]
    exact (insertSorted_perm e (sortEntries t)).trans (ih.cons e)

theorem mem_of_lookupKey : ∀ {l : List ((Int × Int) × Int)} {k : Int × Int} {v : Int},
    lookupKey l k = some v → (k, v) ∈ l := by
  intro l
  induction l with
  | nil => intro k v h; exact absurd h (by simp [lookupKey])
  | cons e t ih =>
    intro k v h
    obtain ⟨k0, v0⟩ := e
    by_cases hk : k0 = k
    · rw [lookupKey, if_pos hk] at h
      cases h
      rw [hk]
      exact List.mem_cons_self _ _
    · rw [lookupKey, if_neg hk] at h
      exact List.mem_cons_of_mem _ (ih h)

theorem lookupKey_eq_some_of_mem : ∀ {l : List ((Int × Int) × Int)} {k : Int × Int}
    {v : Int}, (l.map Prod.fst).Nodup → (k, v) ∈ l → lookupKey l k = some v := by
  intro l
  induction l with
  | nil => intro k v _ h; exact absurd h (List.not_mem_nil _)
  | cons e t ih =>
    intro k v hnd hmem
    obtain ⟨k0, v0⟩ := e
    rw [List.map_cons, List.nodup_cons] at hnd
    rcases List.mem_cons.mp hmem with he | hmem2
    · cases he
      rw [lookupKey, if_pos rfl]
    · have hk : k0 ≠ k := by
        intro he
        subst he
        exact hnd.1 (List.mem_map.mpr ⟨(k0, v), hmem2, rfl⟩)
      rw [lookupKey, if_neg hk]
      exact ih hnd.2 hmem2

theorem lookupKey_perm {l1 l2 : List ((Int × Int) × Int)} (hperm : l1.Perm l2)
    (hnd : (l1.map Prod.fst).Nodup) (k : Int × Int) :
    lookupKey l1 k = lookupKey l2 k := by
  have hnd2 : (l2.map Prod.fst).Nodup := ((hperm.map Prod.fst).nodup_iff).mp hnd
  cases h1 : lookupKey l1 k with
  | some v =>
    exact (lookupKey_eq_some_of_mem hnd2 (hperm.mem_iff.mp (mem_of_lookupKey h1))).symm
  | none =>
    cases h2 : lookupKey l2 k with
    | none => rfl
    | some w =>
      have hmem : (k, w) ∈ l1 := hperm.mem_iff.mpr (mem_of_lookupKey h2)
      rw [lookupKey_eq_some_of_mem hnd hmem] at h1
      exact absurd h1 (by simp)

theorem lookup_eq_of_getv_eq {m1 m2 : SparseMatrix} (h1 : WF m1) (h2 : WF m2)
    (h : ∀ p : Int × Int, m1.getv p.1 p.2 = m2.getv p.1 p.2) (k : Int × Int) :
    lookupKey m1.matrix_data k = lookupKey m2.matrix_data k := by
  have hgv := h k
  cases hv1 : lookupKey m1.matrix_data k with
  | some v =>
    have hvne : v ≠ 0 := (h1.1 _ (mem_of_lookupKey hv1)).2.2.2.2
    have hg1 : m1.getv k.1 k.2 = v := by
      unfold SparseMatrix.getv
      rw [Prod.mk.eta, hv1]
      rfl
    cases hv2 : lookupKey m2.matrix_data k with
    | none =>
      have hg2 : m2.getv k.1 k.2 = 0 := by
        unfold SparseMatrix.getv
        rw [Prod.mk.eta, hv2]
        rfl
      rw [hg1, hg2] at hgv
      exact absurd hgv hvne
    | some w =>
      have hg2 : m2.getv k.1 k.2 = w := by
        unfold SparseMatrix.getv
        rw [Prod.mk.eta, hv2]
        rfl
      rw [hg1, hg2] at hgv
      rw [hgv]
  | none =>
    have hg1 : m1.getv k.1 k.2 = 0 := by
      unfold SparseMatrix.getv
      rw [Prod.mk.eta, hv1]
      rfl
    cases hv2 : lookupKey m2.matrix_data k with
    | none => rfl
    | some w =>
      have hwne : w ≠ 0 := (h2.1 _ (mem_of_lookupKey hv2)).2.2.2.2
      have hg2 : m2.getv k.1 k.2 = w := by
        unfold SparseMatrix.getv
        rw [Prod.mk.eta, hv2]
        rfl
      rw [hg1, hg2] at hgv
      exact absurd hgv.symm hwne

theorem validate_intRepr_rows (m : SparseMatrix) (k : Nat) :
    validate_and_set_dimension m (intRepr ((k : Int) - 1)) rowT
      = .ok ⟨k, m.cols, m.matrix_data⟩ := by
  unfold validate_and_set_dimension
  rw [is_valid_int_intRepr, parse_int_intRepr]
  rw [if_neg (by simp), if_neg (by omega), if_pos rfl]
  have hk : ((k : Int) - 1 + 1).toNat = k := by omega
  rw [hk]

theorem validate_intRepr_cols (m : SparseMatrix) (k : Nat) :
    validate_and_set_dimension m (intRepr ((k : Int) - 1)) colT
      = .ok ⟨m.rows, k, m.matrix_data⟩ := by
  unfold validate_and_set_dimension
  rw [is_valid_int_intRepr, parse_int_intRepr]
  rw [if_neg (by simp), if_neg (by omega), if_neg (by decide), ]
  have hk : ((k : Int) - 1 + 1).toNat = k := by omega
  rw [hk]

theorem parseLinesAux_entryLines : ∀ (l : List ((Int × Int) × Int)) (n : Nat)
    (m : SparseMatrix), (∀ e ∈ l, inBdd m.rows m.cols e) →
    ∃ M, parseLinesAux (l.map (fun e => entryLine e.1.1 e.1.2 e.2)) n true true m = .ok M ∧
      copyEntries m l = .ok M := by
  intro l
  induction l with
  | nil =>
    intro n m _
    exact ⟨m, rfl, rfl⟩
  | cons e t ih =>
    intro n m hbdd
    obtain ⟨⟨r, c⟩, v⟩ := e
    have hb : 0 ≤ r ∧ r < (m.rows : Int) ∧ 0 ≤ c ∧ c < (m.cols : Int) :=
      hbdd _ (List.mem_cons_self _ _)
    obtain ⟨M, hrun, hcopy⟩ := ih (n + 1) (setOk m r c v)
      (fun e he => hbdd e (List.mem_cons_of_mem _ he))
    refine ⟨M, ?_, ?_⟩
    · rw [List.map_cons, parseLinesAux, parseStep_entryLine hb]
      exact hrun
    · rw [copyEntries, set_element_eq_ok v hb]
      exact hcopy

/-- C3: saving any well-formed matrix and parsing the saved lines
yields a matrix with the same dimensions and exactly the same stored
entries — including 0×0 and entry-free matrices. -/
theorem C3_save_load_roundtrip (m : SparseMatrix) (hm : WF m) :
    ∃ M, parse_file (save_lines m) = .ok M ∧ M.rows = m.rows ∧ M.cols = m.cols ∧
      ∀ k : Int × Int, lookupKey M.matrix_data k = lookupKey m.matrix_data k := by
  have hfilter : (sortEntries m.matrix_data).filter (fun e => decide (e.2 ≠ 0))
      = sortEntries m.matrix_data :=
    List.filter_eq_self.mpr (fun a ha =>
      decide_eq_true ((hm.1 a ((sortEntries_perm m.matrix_data).mem_iff.mp ha)).2.2.2.2))
  have hvr : '=' ∉ intRepr ((m.rows : Int) - 1) :=
    intRepr_no_char (by decide) (by decide)
  have hvc : '=' ∉ intRepr ((m.cols : Int) - 1) :=
    intRepr_no_char (by decide) (by decide)
  have hstep1 : parseStep (rowsTag ++ intRepr ((m.rows : Int) - 1)) 1 false false
      ⟨0, 0, []⟩ = .cont true false ⟨m.rows, 0, []⟩ := by
    rw [parseStep_rows_no_second_eq hvr, if_neg (by simp), trim_intRepr,
      validate_intRepr_rows]
  have hstep2 : parseStep (colsTag ++ intRepr ((m.cols : Int) - 1)) 2 true false
      ⟨m.rows, 0, []⟩ = .cont true true ⟨m.rows, m.cols, []⟩ := by
    rw [parseStep_cols_no_second_eq hvc, if_neg (by simp), trim_intRepr,
      validate_intRepr_cols]
  have hbdd : ∀ e ∈ sortEntries m.matrix_data,
      inBdd (SparseMatrix.mk m.rows m.cols []).rows (SparseMatrix.mk m.rows m.cols []).cols e := by
    intro e he
    have hmem := (sortEntries_perm m.matrix_data).mem_iff.mp he
    have hb := hm.1 e hmem
    exact ⟨hb.1, hb.2.1, hb.2.2.1, hb.2.2.2.1⟩
  obtain ⟨M, hrun, hcopy⟩ :=
    parseLinesAux_entryLines (sortEntries m.matrix_data) 2 ⟨m.rows, m.cols, []⟩ hbdd
  have hnds : ((sortEntries m.matrix_data).map Prod.fst).Nodup :=
    (((sortEntries_perm m.matrix_data).map Prod.fst).nodup_iff).mpr hm.2
  obtain ⟨res, hrun2, hrows, hcols, hval⟩ :=
    copyEntries_ok (sortEntries m.matrix_data) ⟨m.rows, m.cols, []⟩ hbdd hnds
  have hMres : res = M := by
    rw [hcopy] at hrun2
    cases hrun2
    rfl
  subst hMres
  have hWFM : WF res :=
    copyEntries_WF (sortEntries m.matrix_data) ⟨m.rows, m.cols, []⟩ res
      (WF_of_data_nil rfl) hcopy
  refine ⟨res, ?_, by rw [hrows], by rw [hcols], ?_⟩
  · unfold parse_file save_lines
    rw [hfilter, parseLinesAux, hstep1]
    simp only []
    rw [parseLinesAux, hstep2]
    simp only []
    exact hrun
  · intro k
    refine lookup_eq_of_getv_eq hWFM hm (fun p => ?_) k
    rw [hval p]
    have hinit : (SparseMatrix.mk m.rows m.cols []).getv p.1 p.2 = 0 := rfl
    rw [hinit, lookupKey_perm (sortEntries_perm m.matrix_data) hnds p]
    rfl

/-- Witness for C3 at a concrete 2×3 matrix with two entries. -/
theorem C3_save_load_roundtrip_witness :
    ∃ M, parse_file (save_lines ⟨2, 3, [((1, 2), 5), ((0, 0), -7)]⟩) = .ok M ∧
      M.rows = (SparseMatrix.mk 2 3 [((1, 2), 5), ((0, 0), -7)]).rows ∧
      M.cols = (SparseMatrix.mk 2 3 [((1, 2), 5), ((0, 0), -7)]).cols ∧
      ∀ k : Int × Int, lookupKey M.matrix_data k =
        lookupKey (SparseMatrix.mk 2 3 [((1, 2), 5), ((0, 0), -7)]).matrix_data k :=
  C3_save_load_roundtrip ⟨2, 3, [((1, 2), 5), ((0, 0), -7)]⟩ (by unfold WF; decide)
